import Mathlib

/-!
# Verification of the pylar broker and peer protocol engine

A shallow embedding of the pylar message-bus broker (`pylar/broker.py`) and of
the generic peer protocol engine (`pylar/generic_client.py`), together with
proofs of the specified routing, registration, round-robin and error-handling
properties.

Byte strings are modelled as `List Nat` (one entry per byte).  Python `dict`s
(which preserve insertion order) are modelled as association lists, and
`collections.deque` as a plain list.  Exceptions are modelled with `Except`:
`CallError(code, message)` becomes `RequestError.callError`, and any other
Python exception becomes `RequestError.exn` with the exception class name.
`await`-ed sub-requests (the broker awaiting a reply from a forwarded wire
request) are modelled by passing the eventual reply in as an explicit
`subReply` argument.
-/

deriving instance DecidableEq for Except

/-- Byte strings: one `Nat` per byte. -/
abbrev Bytes := List Nat

/-- Byte string literal from an ASCII string (all source literals are ASCII). -/
def bytes (s : String) : Bytes := s.toList.map Char.toNat

/- ## Association lists

Python `dict`s preserve insertion order; updating an existing key keeps its
position, inserting a new key appends.  `setA`/`eraseA`/`lookupA` mirror
`d[k] = v` / `del d[k]` / `d.get(k)`. -/

/-- `d.get(k)`: first binding of `k`, if any. -/
def lookupA {β : Type} : List (Bytes × β) → Bytes → Option β
  | [], _ => none
  | (k', v) :: t, k => if k' = k then some v else lookupA t k

/-- `d[k] = v`: replace the first binding of `k`, or append a new one. -/
def setA {β : Type} : List (Bytes × β) → Bytes → β → List (Bytes × β)
  | [], k, v => [(k, v)]
  | (k', v') :: t, k, v => if k' = k then (k, v) :: t else (k', v') :: setA t k v

/-- `del d[k]`: drop the first binding of `k`. -/
def eraseA {β : Type} : List (Bytes × β) → Bytes → List (Bytes × β)
  | [], _ => []
  | (k', v') :: t, k => if k' = k then t else (k', v') :: eraseA t k

/-- The keys of an association list, in order. -/
def keysA {β : Type} (l : List (Bytes × β)) : List Bytes := l.map Prod.fst

/-- `deque.remove(x)`: drop the first occurrence of `x`. -/
def eraseFirst : List Bytes → Bytes → List Bytes
  | [], _ => []
  | y :: t, x => if y = x then t else y :: eraseFirst t x

theorem lookupA_setA_self {β : Type} (l : List (Bytes × β)) (k : Bytes) (v : β) :
    lookupA (setA l k v) k = some v := by
  induction l with
  | nil => simp [setA, lookupA]
  | cons h t ih =>
    obtain ⟨k', v'⟩ := h
    by_cases hk : k' = k
    · simp [setA, hk, lookupA]
    · simp [setA, hk, lookupA, ih]

theorem lookupA_setA_ne {β : Type} (l : List (Bytes × β)) (k k' : Bytes) (v : β)
    (h : k' ≠ k) : lookupA (setA l k v) k' = lookupA l k' := by
  induction l with
  | nil => simp [setA, lookupA, Ne.symm h]
  | cons hd t ih =>
    obtain ⟨k₀, v₀⟩ := hd
    by_cases hk : k₀ = k
    · subst hk
      simp [setA, lookupA, Ne.symm h]
    · simp [setA, hk, lookupA, ih]

theorem lookupA_eraseA_ne {β : Type} (l : List (Bytes × β)) (k k' : Bytes)
    (h : k' ≠ k) : lookupA (eraseA l k) k' = lookupA l k' := by
  induction l with
  | nil => simp [eraseA]
  | cons hd t ih =>
    obtain ⟨k₀, v₀⟩ := hd
    by_cases hk : k₀ = k
    · subst hk
      simp [eraseA, lookupA, Ne.symm h]
    · simp [eraseA, hk, lookupA, ih]

theorem lookupA_mem_keysA {β : Type} (l : List (Bytes × β)) (k : Bytes) (v : β)
    (h : lookupA l k = some v) : k ∈ keysA l := by
  induction l with
  | nil => simp [lookupA] at h
  | cons hd t ih =>
    obtain ⟨k₀, v₀⟩ := hd
    by_cases hk : k₀ = k
    · simp [keysA, hk]
    · simp only [lookupA, hk, if_false] at h
      simp only [keysA, List.map_cons, List.mem_cons]
      right
      exact ih h

theorem lookupA_none_of_not_mem {β : Type} (l : List (Bytes × β)) (k : Bytes)
    (h : k ∉ keysA l) : lookupA l k = none := by
  induction l with
  | nil => simp [lookupA]
  | cons hd t ih =>
    obtain ⟨k₀, v₀⟩ := hd
    simp only [keysA, List.map_cons, List.mem_cons] at h
    push_neg at h
    simp only [lookupA, Ne.symm h.1, if_false]
    exact ih h.2

theorem lookupA_eraseA_self {β : Type} (l : List (Bytes × β)) (k : Bytes)
    (h : (keysA l).Nodup) : lookupA (eraseA l k) k = none := by
  induction l with
  | nil => simp [eraseA, lookupA]
  | cons hd t ih =>
    obtain ⟨k₀, v₀⟩ := hd
    simp only [keysA, List.map_cons, List.nodup_cons] at h
    by_cases hk : k₀ = k
    · subst hk
      simp only [eraseA, if_pos rfl]
      exact lookupA_none_of_not_mem t k₀ h.1
    · have he : eraseA ((k₀, v₀) :: t) k = (k₀, v₀) :: eraseA t k := by
        simp [eraseA, hk]
      rw [he]
      simp only [lookupA, hk, if_false]
      exact ih h.2

theorem keysA_setA_mem {β : Type} (l : List (Bytes × β)) (k : Bytes) (v : β)
    (h : k ∈ keysA l) : keysA (setA l k v) = keysA l := by
  induction l with
  | nil => simp [keysA] at h
  | cons hd t ih =>
    obtain ⟨k₀, v₀⟩ := hd
    by_cases hk : k₀ = k
    · simp [setA, hk, keysA]
    · simp only [keysA, List.map_cons, List.mem_cons] at h
      rcases h with h | h
      · exact absurd h.symm hk
      · have hi := ih h
        simp only [keysA] at hi ⊢
        simp [setA, hk, hi]

theorem keysA_setA_not_mem {β : Type} (l : List (Bytes × β)) (k : Bytes) (v : β)
    (h : k ∉ keysA l) : keysA (setA l k v) = keysA l ++ [k] := by
  induction l with
  | nil => simp [setA, keysA]
  | cons hd t ih =>
    obtain ⟨k₀, v₀⟩ := hd
    simp only [keysA, List.map_cons, List.mem_cons] at h
    push_neg at h
    have hi := ih h.2
    simp only [keysA] at hi ⊢
    simp [setA, Ne.symm h.1, hi]

theorem eraseFirst_sublist (l : List Bytes) (x : Bytes) : (eraseFirst l x).Sublist l := by
  induction l with
  | nil => simp [eraseFirst]
  | cons y t ih =>
    by_cases hy : y = x
    · simp [eraseFirst, hy]
    · simp only [eraseFirst, hy, if_false]
      exact ih.cons₂ y

theorem nodup_eraseFirst (l : List Bytes) (x : Bytes) (h : l.Nodup) :
    (eraseFirst l x).Nodup := (eraseFirst_sublist l x).nodup h

theorem mem_eraseFirst_of_ne (l : List Bytes) (x y : Bytes) (h : y ≠ x) :
    y ∈ eraseFirst l x ↔ y ∈ l := by
  induction l with
  | nil => simp [eraseFirst]
  | cons z t ih =>
    by_cases hz : z = x
    · subst hz
      simp [eraseFirst, h]
    · simp [eraseFirst, hz, ih]

theorem not_mem_eraseFirst_self (l : List Bytes) (x : Bytes) (h : l.Nodup) :
    x ∉ eraseFirst l x := by
  induction l with
  | nil => simp [eraseFirst]
  | cons z t ih =>
    simp only [List.nodup_cons] at h
    by_cases hz : z = x
    · subst hz
      simp [eraseFirst, h.1]
    · simp only [eraseFirst, hz, if_false, List.mem_cons]
      push_neg
      exact ⟨fun e => hz e.symm, ih h.2⟩

theorem keysA_eraseA_sublist {β : Type} (l : List (Bytes × β)) (k : Bytes) :
    (keysA (eraseA l k)).Sublist (keysA l) := by
  induction l with
  | nil => simp [eraseA, keysA]
  | cons hd t ih =>
    obtain ⟨k₀, v₀⟩ := hd
    by_cases hk : k₀ = k
    · subst hk
      simp only [eraseA, if_pos rfl, keysA, List.map_cons]
      exact (List.sublist_cons_self k₀ (t.map Prod.fst))
    · simp only [eraseA, hk, if_false, keysA, List.map_cons]
      exact ih.cons₂ k₀

/- ## Broker data model (`pylar/broker.py`)

`Connection` (broker side) holds a per-connection `uid = uuid4().bytes`
assigned at creation and a `domains : dict domain -> token` map.  `uuid4()` is
nondeterministic, so the fresh uid is an explicit argument wherever a
connection is created.  The broker holds `__connections : identity ->
Connection` and `__connections_by_domain : domain -> deque of connections`;
deque entries are represented by the connection's identity (the key under
which the broker stores the object). -/

structure Conn where
  uid : Bytes
  domains : List (Bytes × Bytes)
deriving DecidableEq, Repr

structure BrokerState where
  connections : List (Bytes × Conn)
  connectionsByDomain : List (Bytes × List Bytes)
deriving DecidableEq, Repr

/-- `Broker.SERVICE_DOMAIN_PREFIX = b'service'`. -/
def servicePrefixBytes : Bytes := bytes "service"

/-- `Broker.SERVICE_AUTHENTICATION_DOMAIN = b'service/authentication'`. -/
def SERVICE_AUTHENTICATION_DOMAIN : Bytes :=
  servicePrefixBytes ++ bytes "/" ++ bytes "authentication"

/-- `Broker.SERVICE_LINK_DOMAIN = b'service/link'`. -/
def SERVICE_LINK_DOMAIN : Bytes := servicePrefixBytes ++ bytes "/" ++ bytes "link"

/-- `b.startswith(p)` (subject first, like the Python method call). -/
def startsWith : Bytes → Bytes → Bool
  | _, [] => true
  | [], _ :: _ => false
  | y :: b, x :: p => if y = x then startsWith b p else false

/-- Python `CallError` (code, message) or any other raised exception (by its
Python class name). -/
inductive RequestError where
  | callError (code : Nat) (message : Bytes)
  | exn (name : String)
deriving DecidableEq, Repr

/-- The round-robin target selected by `Broker.__get_connection_for`: either a
`Connection` (by identity) or a `LinkConnection` wrapping one. -/
inductive Target where
  | direct (identity : Bytes)
  | link (identity : Bytes)
deriving DecidableEq, Repr

/-- A wire-level request or notification written to a connection's socket:
the target connection's identity and the payload frames (everything after the
frame type and request id). -/
structure Outbound where
  identity : Bytes
  frames : List Bytes
deriving DecidableEq, Repr

/-- Python `source_token or b''` (`None` and `b''` both collapse to `b''`). -/
def orEmpty (t : Option Bytes) : Bytes := t.getD []

/-- Payload frames built by `Connection.request`:
`[domain, source_domain, source_token or b''] + args`. -/
def connRequestFrames (domain sourceDomain : Bytes) (sourceToken : Option Bytes)
    (args : List Bytes) : List Bytes :=
  domain :: sourceDomain :: orEmpty sourceToken :: args

/-- Payload frames built by `Connection.notification`:
`[domain, source_domain, source_token or b'', type_] + args`. -/
def connNotificationFrames (domain sourceDomain : Bytes) (sourceToken : Option Bytes)
    (type_ : Bytes) (args : List Bytes) : List Bytes :=
  domain :: sourceDomain :: orEmpty sourceToken :: type_ :: args

/-- `Connection.request` / `LinkConnection.request`: a `LinkConnection`
redirects to `service/link` with command `dispatch` and the original domain as
an extra argument. -/
def Target.request (t : Target) (domain sourceDomain : Bytes)
    (sourceToken : Option Bytes) (args : List Bytes) : Outbound :=
  match t with
  | .direct cid => ⟨cid, connRequestFrames domain sourceDomain sourceToken args⟩
  | .link cid =>
      ⟨cid, connRequestFrames SERVICE_LINK_DOMAIN sourceDomain sourceToken
        (bytes "dispatch" :: domain :: args)⟩

/-- `Connection.notification` / `LinkConnection.notification`: a
`LinkConnection` redirects to `service/link` with type
`notification_dispatch` and `[type_, domain]` prepended to the arguments. -/
def Target.notification (t : Target) (domain sourceDomain : Bytes)
    (sourceToken : Option Bytes) (type_ : Bytes) (args : List Bytes) : Outbound :=
  match t with
  | .direct cid => ⟨cid, connNotificationFrames domain sourceDomain sourceToken type_ args⟩
  | .link cid =>
      ⟨cid, connNotificationFrames SERVICE_LINK_DOMAIN sourceDomain sourceToken
        (bytes "notification_dispatch") (type_ :: domain :: args)⟩

/-- The deque currently registered for a domain (empty when the domain is not
in the registry). -/
def dequeOf (st : BrokerState) (domain : Bytes) : List Bytes :=
  (lookupA st.connectionsByDomain domain).getD []

/-- The uid of the connection stored under an identity, if any. -/
def uidOf (st : BrokerState) (identity : Bytes) : Option Bytes :=
  (lookupA st.connections identity).map Conn.uid

/-- `Broker.__add_connection`: create a `Connection` (fresh uuid4 uid passed
explicitly, empty domain map) and store it under its identity. -/
def addConnection (st : BrokerState) (identity freshUid : Bytes) : BrokerState :=
  ⟨setA st.connections identity ⟨freshUid, []⟩, st.connectionsByDomain⟩

/-- `Broker.__refresh_connection`: reuse the existing connection for this
identity (only its dying timer is revived, which is not part of the state
here), or add a fresh one. -/
def refreshConnection (st : BrokerState) (identity freshUid : Bytes) : BrokerState :=
  if (lookupA st.connections identity).isSome then st
  else addConnection st identity freshUid

/-- `Broker.__register_connection`: append the connection to the domain's
deque (creating it if needed) and record the token in the connection's
`domains` map.  The connection object invoking a handler is always present in
`__connections`, so the `none` fallback below is dead in any reachable state. -/
def registerConnection (st : BrokerState) (cid domain token : Bytes) : BrokerState :=
  let dq := (lookupA st.connectionsByDomain domain).getD []
  ⟨match lookupA st.connections cid with
    | some c => setA st.connections cid ⟨c.uid, setA c.domains domain token⟩
    | none => st.connections,
   setA st.connectionsByDomain domain (dq ++ [cid])⟩

/-- `Broker.__unregister_connection`: remove the connection from the domain's
deque (`KeyError` when the domain has no deque, `ValueError` when the
connection is not in it), delete the deque when it becomes empty, and delete
the domain from the connection's `domains` map.  In Python a `KeyError` on
that last `del` would leave the registry already mutated; that interleaving is
unreachable from any state where registry and `domains` maps agree (the del
only happens when the connection was found in the deque), so the model simply
reports the error. -/
def unregisterConnection (st : BrokerState) (cid domain : Bytes) :
    Except RequestError BrokerState :=
  match lookupA st.connectionsByDomain domain with
  | none => .error (.exn "KeyError")
  | some dq =>
    if cid ∈ dq then
      let dq' := eraseFirst dq cid
      let byDom :=
        if dq' = [] then eraseA st.connectionsByDomain domain
        else setA st.connectionsByDomain domain dq'
      match lookupA st.connections cid with
      | some c =>
        if (lookupA c.domains domain).isSome then
          .ok ⟨setA st.connections cid ⟨c.uid, eraseA c.domains domain⟩, byDom⟩
        else .error (.exn "KeyError")
      | none => .error (.exn "KeyError")
    else .error (.exn "ValueError")

/-- The loop body of `Broker.__remove_connection`: unregister a snapshot list
of domains one after the other. -/
def unregisterAll (st : BrokerState) (cid : Bytes) :
    List Bytes → Except RequestError BrokerState
  | [] => .ok st
  | d :: ds =>
    match unregisterConnection st cid d with
    | .error e => .error e
    | .ok st' => unregisterAll st' cid ds

/-- `Broker.__remove_connection`: unregister every domain in
`list(connection.domains)` and delete the connection from `__connections`. -/
def removeConnection (st : BrokerState) (cid : Bytes) : Except RequestError BrokerState :=
  match lookupA st.connections cid with
  | none => .error (.exn "KeyError")
  | some c =>
    match unregisterAll st cid (keysA c.domains) with
    | .error e => .error e
    | .ok st' => .ok ⟨eraseA st'.connections cid, st'.connectionsByDomain⟩

/-- The direct round-robin hit inside `Broker.__get_connection_for`: take the
head of the domain's deque and rotate the deque by one
(`connections.rotate(-1)` moves the head to the tail). -/
def getDirect (byDom : List (Bytes × List Bytes)) (domain : Bytes) :
    Option (Bytes × List (Bytes × List Bytes)) :=
  match lookupA byDom domain with
  | some (h :: t) => some (h, setA byDom domain (t ++ [h]))
  | _ => none

/-- `Broker.__get_connection_for`: direct hit on the target domain, else (when
`allow_link`) a hit on `service/link` wrapped in a `LinkConnection`, else
nothing.  Returns the selected target and the updated registry. -/
def getConnectionFor (byDom : List (Bytes × List Bytes)) (target : Bytes)
    (allowLink : Bool) : Option Target × List (Bytes × List Bytes) :=
  match getDirect byDom target with
  | some (h, byDom') => (some (.direct h), byDom')
  | none =>
    if allowLink then
      match getDirect byDom SERVICE_LINK_DOMAIN with
      | some (h, byDom') => (some (.link h), byDom')
      | none => (none, byDom)
    else (none, byDom)

/- ## Credentials (`pylar/security.py`, `Broker.__verify_service_credentials`)

The Blake2b keyed/salted/personalized hash is cryptographic and is modelled as
an opaque function parameter `hashFn secret salt personal` (the spec treats it
as an opaque verifier predicate). -/

/-- `security.generate_hash`: pad the identifier to 16 bytes with `b'-'`
(0x2d) and apply the keyed hash.  Python `b'-' * n` is empty for negative
`n`, which truncated Nat subtraction reproduces. -/
def generate_hash (hashFn : Bytes → Bytes → Bytes → Bytes)
    (sharedSecret salt identifier : Bytes) : Bytes :=
  hashFn sharedSecret salt (identifier ++ List.replicate (16 - identifier.length) 45)

/-- `security.verify_hash`: compare against the reference hash. -/
def verify_hash (hashFn : Bytes → Bytes → Bytes → Bytes)
    (sharedSecret salt identifier hash : Bytes) : Bool :=
  hash = generate_hash hashFn sharedSecret salt identifier

/-- Index of the first `b'/'` (0x2f) in a byte string, as
`bytes.index(b'/')`: raises `ValueError` when absent (`none` here). -/
def findSlash (b : Bytes) : Option Nat := b.findIdx? (fun c => c = 47)

/-- `Broker.__verify_service_credentials`: parse the credentials as one byte
of salt length, then the salt, then the hash (`struct.unpack('B', ...)` raises
on empty input); the personalization identifier is everything after the first
`/` of the service name (`ValueError` when there is none), truncated to 16
bytes. -/
def verifyServiceCredentials (hashFn : Bytes → Bytes → Bytes → Bytes)
    (sharedSecret serviceName credentials : Bytes) : Except RequestError Bool :=
  match credentials with
  | [] => .error (.exn "StructError")
  | saltLen :: _ =>
    let salt := (credentials.drop 1).take saltLen
    let hash := credentials.drop (saltLen + 1)
    match findSlash serviceName with
    | none => .error (.exn "ValueError")
    | some i =>
      let identifier := serviceName.drop (i + 1)
      .ok (verify_hash hashFn sharedSecret salt (identifier.take 16) hash)

/- ## Error messages

`"No such domain: %s." % target_domain` interpolates the *repr* of the bytes
object (Python 3 `%s` on a `bytes` value inside a `str` format), i.e.
`b'...'` with CPython's escaping rules. -/

/-- Lower-case hexadecimal digit. -/
def hexDigit (n : Nat) : Nat := if n < 10 then 48 + n else 87 + n

/-- CPython escaping of one byte inside a bytes repr delimited by quote
character `q`: backslash, the delimiter, tab, newline and carriage return get
a backslash escape, printable ASCII is kept, everything else becomes a
two-digit hex escape. -/
def pyByteEsc (q n : Nat) : Bytes :=
  if n = 92 then [92, 92]
  else if n = q then [92, q]
  else if n = 9 then [92, 116]
  else if n = 10 then [92, 110]
  else if n = 13 then [92, 114]
  else if 32 ≤ n ∧ n ≤ 126 then [n]
  else [92, 120, hexDigit (n / 16), hexDigit (n % 16)]

/-- CPython `repr` of a bytes object: `b` then the quoted escaped content;
double quotes are used when the content contains a single quote but no double
quote, single quotes otherwise. -/
def pyBytesRepr (b : Bytes) : Bytes :=
  let q := if 39 ∈ b ∧ ¬ 34 ∈ b then 34 else 39
  98 :: q :: (b.flatMap (pyByteEsc q) ++ [q])

/-- The 404 message `"No such domain: %s."` with the interpolated repr of the
target domain. -/
def noSuchDomainMsg (target : Bytes) : Bytes :=
  bytes "No such domain: " ++ pyBytesRepr target ++ bytes "."

/- ## Broker command handlers (`Broker.__*_request`, `__process_request`)

A handler either raises (`.error`) or returns the new broker state, the
wire-level requests it sent (in order), and its Python return value (`none`
for Python `None`).  The reply that a sent sub-request eventually resolves to
is supplied as the `subReply` argument (each handler awaits at most one). -/

structure PResult where
  state : BrokerState
  sent : List Outbound
  reply : Option (List Bytes)
deriving DecidableEq, Repr

/-- The tail of `Broker.__register_request` after the token is known: if the
caller is already registered for the domain, unregister first, then register
with the new token and reply `[token]`. -/
def finishRegister (st : BrokerState) (cid domain token : Bytes)
    (sent : List Outbound) : Except RequestError PResult :=
  let registered :=
    match lookupA st.connections cid with
    | some c => (lookupA c.domains domain).isSome
    | none => false
  if registered then
    match unregisterConnection st cid domain with
    | .error e => .error e
    | .ok st' => .ok ⟨registerConnection st' cid domain token, sent, some [token]⟩
  else .ok ⟨registerConnection st cid domain token, sent, some [token]⟩

/-- `Broker.__register_request`.  Service domains (`startswith(b'service')`)
are verified locally against the shared secret and get the empty token; other
domains are authenticated by a `[b'authenticate', credentials]` request to
whatever `__get_connection_for(b'service/authentication')` returns (possibly a
`LinkConnection`), failing with 503 when there is none.  `token, = reply`
requires the reply to be exactly one frame. -/
def registerRequest (hashFn : Bytes → Bytes → Bytes → Bytes)
    (sharedSecret : Bytes) (st : BrokerState) (cid : Bytes) (conn : Conn)
    (domain : Bytes) (frames : List Bytes)
    (subReply : Except RequestError (List Bytes)) : Except RequestError PResult :=
  match frames with
  | [] => .error (.exn "IndexError")
  | credentials :: _ =>
    if startsWith domain servicePrefixBytes then
      match verifyServiceCredentials hashFn sharedSecret domain credentials with
      | .error e => .error e
      | .ok ok =>
        if ok then finishRegister st cid domain [] []
        else .error (.callError 401 (bytes "Invalid shared secret."))
    else
      match getConnectionFor st.connectionsByDomain SERVICE_AUTHENTICATION_DOMAIN true with
      | (none, _) => .error (.callError 503 (bytes "Authentication service unavailable."))
      | (some tgt, byDom') =>
        let ob := tgt.request SERVICE_AUTHENTICATION_DOMAIN domain
          (lookupA conn.domains domain) [bytes "authenticate", credentials]
        match subReply with
        | .error e => .error e
        | .ok reply =>
          match reply with
          | [token] => finishRegister ⟨st.connections, byDom'⟩ cid domain token [ob]
          | _ => .error (.exn "ValueError")

/-- `Broker.__unregister_request`: unregister and return `None`. -/
def unregisterRequest (st : BrokerState) (cid domain : Bytes) :
    Except RequestError PResult :=
  match unregisterConnection st cid domain with
  | .error e => .error e
  | .ok st' => .ok ⟨st', [], none⟩

/-- `Broker.__request_request`: 412 unless the source domain is registered on
the calling connection; resolve the target (link fallback allowed, 404 on
double miss) and forward `[target, source, source_token, *args]`, replying
with the forwarded reply verbatim. -/
def requestRequest (st : BrokerState) (conn : Conn) (domain : Bytes)
    (frames : List Bytes) (subReply : Except RequestError (List Bytes)) :
    Except RequestError PResult :=
  if (lookupA conn.domains domain).isSome then
    match frames with
    | [] => .error (.exn "IndexError")
    | targetDomain :: args =>
      match getConnectionFor st.connectionsByDomain targetDomain true with
      | (none, _) => .error (.callError 404 (noSuchDomainMsg targetDomain))
      | (some tgt, byDom') =>
        let ob := tgt.request targetDomain domain (lookupA conn.domains domain) args
        match subReply with
        | .error e => .error e
        | .ok r => .ok ⟨⟨st.connections, byDom'⟩, [ob], some r⟩
  else .error (.callError 412 (bytes "Not registered."))

/-- `Broker.__query_request`: 412 unless registered; succeed with `None` iff
the target domain is locally registered (no link fallback), 404 otherwise. -/
def queryRequest (st : BrokerState) (conn : Conn) (domain : Bytes)
    (frames : List Bytes) : Except RequestError PResult :=
  if (lookupA conn.domains domain).isSome then
    match frames with
    | [] => .error (.exn "IndexError")
    | targetDomain :: _ =>
      match getConnectionFor st.connectionsByDomain targetDomain false with
      | (none, _) => .error (.callError 404 (noSuchDomainMsg targetDomain))
      | (some _, byDom') => .ok ⟨⟨st.connections, byDom'⟩, [], none⟩
  else .error (.callError 412 (bytes "Not registered."))

/-- `Broker.__transmit_request`: 412 unless the supplied source domain is
registered on the calling connection; resolve the target without link
fallback (404 on miss), then forward impersonating the supplied
x-domain/x-token.  (A missing x-domain/x-token frame raises `IndexError`; in
Python the deque rotation performed by the lookup survives such a failure,
while this model discards it - the rotation is invisible to every stated
property.) -/
def transmitRequest (st : BrokerState) (conn : Conn) (domain : Bytes)
    (frames : List Bytes) (subReply : Except RequestError (List Bytes)) :
    Except RequestError PResult :=
  if (lookupA conn.domains domain).isSome then
    match frames with
    | [] => .error (.exn "IndexError")
    | targetDomain :: rest =>
      match getConnectionFor st.connectionsByDomain targetDomain false with
      | (none, _) => .error (.callError 404 (noSuchDomainMsg targetDomain))
      | (some tgt, byDom') =>
        match rest with
        | sourceDomain :: sourceToken :: args =>
          let ob := tgt.request targetDomain sourceDomain (some sourceToken) args
          match subReply with
          | .error e => .error e
          | .ok r => .ok ⟨⟨st.connections, byDom'⟩, [ob], some r⟩
        | _ => .error (.exn "IndexError")
  else .error (.callError 412 (bytes "Not registered."))

/-- `Broker.__process_request`: pop the command; `ping` is answered with the
connection's uid before anything else; otherwise pop the domain and dispatch
to the command handler, or fail 400 for an unknown command. -/
def processRequest (hashFn : Bytes → Bytes → Bytes → Bytes) (sharedSecret : Bytes)
    (st : BrokerState) (cid : Bytes) (frames : List Bytes)
    (subReply : Except RequestError (List Bytes)) : Except RequestError PResult :=
  match lookupA st.connections cid with
  | none => .error (.exn "KeyError")
  | some conn =>
    match frames with
    | [] => .error (.exn "IndexError")
    | command :: frames =>
      if command = bytes "ping" then .ok ⟨st, [], some [conn.uid]⟩
      else
        match frames with
        | [] => .error (.exn "IndexError")
        | domain :: frames =>
          if command = bytes "register" then
            registerRequest hashFn sharedSecret st cid conn domain frames subReply
          else if command = bytes "unregister" then
            unregisterRequest st cid domain
          else if command = bytes "request" then
            requestRequest st conn domain frames subReply
          else if command = bytes "query" then
            queryRequest st conn domain frames
          else if command = bytes "transmit" then
            transmitRequest st conn domain frames subReply
          else .error (.callError 400 (bytes "Bad request."))

/-- `Broker.__process_notification`: pop the type and domain; 412 unless the
domain is registered on the calling connection; resolve the target (link
fallback allowed, 404 on miss); a `transmit` notification substitutes the
impersonated source domain/token popped from the frames, anything else uses
the calling domain and its registered token. -/
def processNotification (st : BrokerState) (cid : Bytes) (frames : List Bytes) :
    Except RequestError (BrokerState × Outbound) :=
  match lookupA st.connections cid with
  | none => .error (.exn "KeyError")
  | some conn =>
    match frames with
    | type_ :: domain :: rest =>
      if (lookupA conn.domains domain).isSome then
        match rest with
        | [] => .error (.exn "IndexError")
        | targetDomain :: rest2 =>
          match getConnectionFor st.connectionsByDomain targetDomain true with
          | (none, _) => .error (.callError 404 (noSuchDomainMsg targetDomain))
          | (some tgt, byDom') =>
            if type_ = bytes "transmit" then
              match rest2 with
              | type2 :: sourceDomain :: sourceToken :: args =>
                .ok (⟨st.connections, byDom'⟩,
                  tgt.notification targetDomain sourceDomain (some sourceToken) type2 args)
              | _ => .error (.exn "IndexError")
            else
              .ok (⟨st.connections, byDom'⟩,
                tgt.notification targetDomain domain (lookupA conn.domains domain) type_ rest2)
      else .error (.callError 412 (bytes "Not registered."))
    | _ => .error (.exn "IndexError")

/- ## Peer protocol engine (`pylar/generic_client.py`)

The request correlator `__pending_requests` maps a request id to a future;
a future is pending, resolved with reply frames, or failed with an
exception. -/

inductive FutState where
  | pending
  | result (frames : List Bytes)
  | failure (e : RequestError)
deriving DecidableEq, Repr

/-- `GenericClient.__set_request_result`: `assert future` (an `AssertionError`
when the id is unknown) and `assert not future.done()` (an `AssertionError`
when it was set already), then resolve the future. -/
def setRequestResult (pending : List (Bytes × FutState)) (requestId : Bytes)
    (frames : List Bytes) : Except RequestError (List (Bytes × FutState)) :=
  match lookupA pending requestId with
  | none => .error (.exn "AssertionError")
  | some .pending => .ok (setA pending requestId (.result frames))
  | some _ => .error (.exn "AssertionError")

/-- `GenericClient.__set_request_exception`: same assertions, then fail the
future. -/
def setRequestException (pending : List (Bytes × FutState)) (requestId : Bytes)
    (e : RequestError) : Except RequestError (List (Bytes × FutState)) :=
  match lookupA pending requestId with
  | none => .error (.exn "AssertionError")
  | some .pending => .ok (setA pending requestId (.failure e))
  | some _ => .error (.exn "AssertionError")

/-- `InvalidReplyError()` is `CallError(0, "The received reply is invalid.")`. -/
def invalidReplyError : RequestError :=
  .callError 0 (bytes "The received reply is invalid.")

/-- `int(frame)` restricted to the canonical non-negative decimal encodings
the protocol ever emits (`('%d' % code).encode()`); sign and whitespace
handling of Python `int` is not modelled. -/
def parseIntBytes (b : Bytes) : Option Nat :=
  if b ≠ [] ∧ b.all (fun c => 48 ≤ c ∧ c ≤ 57) then
    some (b.foldl (fun acc c => acc * 10 + (c - 48)) 0)
  else none

/-- `frame.decode('utf-8')` restricted to ASCII frames (every byte below
128); all protocol messages are ASCII, so the multi-byte UTF-8 forms are not
modelled. -/
def decodeAscii (b : Bytes) : Option Bytes :=
  if b.all (fun c => c < 128) then some b else none

/-- `GenericClient.__process_response`: pop and parse the code frame (the
`except` branch sets `InvalidReplyError` on the future but then falls through
to read the unbound local `code`, an `UnboundLocalError`); code 200 resolves
the future with the remaining frames, any other code fails it with a
`CallError` carrying the decoded message (or `InvalidReplyError` when the
message frame is missing or undecodable). -/
def processResponse (pending : List (Bytes × FutState)) (requestId : Bytes)
    (frames : List Bytes) : Except RequestError (List (Bytes × FutState)) :=
  match frames with
  | [] =>
    match setRequestException pending requestId invalidReplyError with
    | .error e => .error e
    | .ok _ => .error (.exn "UnboundLocalError")
  | codeFrame :: rest =>
    match parseIntBytes codeFrame with
    | none =>
      match setRequestException pending requestId invalidReplyError with
      | .error e => .error e
      | .ok _ => .error (.exn "UnboundLocalError")
    | some code =>
      if code = 200 then setRequestResult pending requestId rest
      else
        match rest with
        | [] => setRequestException pending requestId invalidReplyError
        | msgFrame :: _ =>
          match decodeAscii msgFrame with
          | none => setRequestException pending requestId invalidReplyError
          | some msg => setRequestException pending requestId (.callError code msg)

/-- The outcome of the owner-supplied `_on_request` handler task:
a normal return (Python `None` allowed), a raised `CallError`, cancellation of
the task, or any other exception. -/
inductive HandlerResult where
  | ok (frames : Option (List Bytes))
  | callError (code : Nat) (message : Bytes)
  | cancelled
  | exn
deriving DecidableEq, Repr

/-- `('%d' % code).encode('utf-8')`. -/
def natBytes (n : Nat) : Bytes := bytes (toString n)

/-- `GenericClient.__send_error_response`: the full multipart error frame. -/
def sendErrorResponse (requestId : Bytes) (code : Nat) (message : Bytes) : List Bytes :=
  [bytes "response", requestId, natBytes code, message]

/-- `GenericClient.__send_response`: the full multipart 200 frame. -/
def sendResponse (requestId : Bytes) (args : List Bytes) : List Bytes :=
  bytes "response" :: requestId :: bytes "200" :: args

/-- `GenericClient.__process_request`: exactly one response is written per
inbound request, chosen by the handler outcome (`response or []` collapses a
`None` return to no payload frames). -/
def ppeProcessRequest (requestId : Bytes) (r : HandlerResult) : List Bytes :=
  match r with
  | .cancelled => sendErrorResponse requestId 408 (bytes "Request timed out.")
  | .callError code message => sendErrorResponse requestId code message
  | .exn => sendErrorResponse requestId 500 (bytes "Internal error.")
  | .ok frames => sendResponse requestId (frames.getD [])

/- ## Round-robin dispatch traces (for the fairness property) -/

/-- The identities selected by `n` successive round-robin dispatches to one
domain through `Broker.__get_connection_for` (stopping early if the domain
ever resolves to no direct connection). -/
def dispatchN (d : Bytes) : BrokerState → Nat → List Bytes
  | _, 0 => []
  | st, n + 1 =>
    match getConnectionFor st.connectionsByDomain d true with
    | (some (.direct cid), byDom') => cid :: dispatchN d ⟨st.connections, byDom'⟩ n
    | _ => []

/-- Reference trace: repeatedly take the head of the deque and rotate it by
one. -/
def rrTrace : List Bytes → Nat → List Bytes
  | _, 0 => []
  | [], _ + 1 => []
  | a :: t, n + 1 => a :: rrTrace (t ++ [a]) n

/- ## Registry well-formedness (spec invariant: registry/`domains` bijection)

`Wf` packages the bijection invariant between `__connections_by_domain` and
the per-connection `domains` maps, together with the structural facts that
make the broker's dict/deque manipulations total: no duplicate dict keys, no
empty deque left behind, no duplicate deque entry, no dangling deque entry. -/

structure Wf (st : BrokerState) : Prop where
  connKeys : (keysA st.connections).Nodup
  domKeys : (keysA st.connectionsByDomain).Nodup
  connDomKeys : ∀ cid c, lookupA st.connections cid = some c → (keysA c.domains).Nodup
  dequesNE : ∀ d dq, lookupA st.connectionsByDomain d = some dq → dq ≠ []
  dequesND : ∀ d dq, lookupA st.connectionsByDomain d = some dq → dq.Nodup
  live : ∀ d dq cid, lookupA st.connectionsByDomain d = some dq → cid ∈ dq →
    (lookupA st.connections cid).isSome
  bij : ∀ cid c d, lookupA st.connections cid = some c →
    (cid ∈ dequeOf st d ↔ (lookupA c.domains d).isSome)

theorem isSome_lookupA_setA {β : Type} (l : List (Bytes × β)) (k k' : Bytes) (v : β) :
    (lookupA (setA l k v) k').isSome ↔ (k' = k ∨ (lookupA l k').isSome) := by
  by_cases h : k' = k
  · subst h
    simp [lookupA_setA_self]
  · simp [lookupA_setA_ne _ _ _ _ h, h]


theorem lookupA_isSome_of_mem {β : Type} (l : List (Bytes × β)) (k : Bytes)
    (h : k ∈ keysA l) : (lookupA l k).isSome := by
  induction l with
  | nil => simp [keysA] at h
  | cons hd t ih =>
    obtain ⟨k₀, v₀⟩ := hd
    by_cases hk : k₀ = k
    · simp [lookupA, hk]
    · simp only [keysA, List.map_cons, List.mem_cons] at h
      rcases h with h | h
      · exact absurd h.symm hk
      · simp only [lookupA, hk, if_false]
        exact ih h

theorem lookupA_setA_cases {β : Type} {l : List (Bytes × β)} {k k' : Bytes} {v w : β}
    (h : lookupA (setA l k v) k' = some w) :
    (k' = k ∧ w = v) ∨ (k' ≠ k ∧ lookupA l k' = some w) := by
  by_cases hk : k' = k
  · left
    refine ⟨hk, ?_⟩
    rw [hk, lookupA_setA_self] at h
    injection h with h
    exact h.symm
  · right
    exact ⟨hk, by rwa [lookupA_setA_ne _ _ _ _ hk] at h⟩

theorem wf_registerConnection {st : BrokerState} {cid : Bytes} {c : Conn}
    (hwf : Wf st) (hc : lookupA st.connections cid = some c) (d tok : Bytes)
    (hnew : lookupA c.domains d = none) : Wf (registerConnection st cid d tok) := by
  have hnotin : cid ∉ dequeOf st d := fun hmem => by
    have := (hwf.bij cid c d hc).mp hmem
    simp [hnew] at this
  have hcidmem : cid ∈ keysA st.connections := lookupA_mem_keysA _ _ _ hc
  have hdnm : d ∉ keysA c.domains := fun hm => by
    have := lookupA_isSome_of_mem _ _ hm
    simp [hnew] at this
  have hconj : registerConnection st cid d tok =
      ⟨setA st.connections cid ⟨c.uid, setA c.domains d tok⟩,
       setA st.connectionsByDomain d (dequeOf st d ++ [cid])⟩ := by
    simp [registerConnection, hc, dequeOf]
  rw [hconj]
  refine ⟨?_, ?_, ?_, ?_, ?_, ?_, ?_⟩
  · rw [keysA_setA_mem _ _ _ hcidmem]
    exact hwf.connKeys
  · cases he : lookupA st.connectionsByDomain d with
    | some dq0 =>
      rw [keysA_setA_mem _ _ _ (lookupA_mem_keysA _ _ _ he)]
      exact hwf.domKeys
    | none =>
      have hnm : d ∉ keysA st.connectionsByDomain := fun hm => by
        have := lookupA_isSome_of_mem _ _ hm
        simp [he] at this
      rw [keysA_setA_not_mem _ _ _ hnm]
      simp [List.nodup_append, hwf.domKeys, hnm]
  · intro cid' c' h'
    rcases lookupA_setA_cases h' with ⟨hk, hw⟩ | ⟨hk, hold⟩
    · rw [hw]
      show (keysA (setA c.domains d tok)).Nodup
      rw [keysA_setA_not_mem _ _ _ hdnm]
      simp [List.nodup_append, hwf.connDomKeys cid c hc, hdnm]
    · exact hwf.connDomKeys cid' c' hold
  · intro d' dq' h'
    rcases lookupA_setA_cases h' with ⟨hk, hw⟩ | ⟨hk, hold⟩
    · rw [hw]
      simp
    · exact hwf.dequesNE d' dq' hold
  · intro d' dq' h'
    rcases lookupA_setA_cases h' with ⟨hk, hw⟩ | ⟨hk, hold⟩
    · rw [hw]
      have hnd : (dequeOf st d).Nodup := by
        cases he : lookupA st.connectionsByDomain d with
        | some dq0 => simpa [dequeOf, he] using hwf.dequesND d dq0 he
        | none => simp [dequeOf, he]
      simp [List.nodup_append, hnd, hnotin]
    · exact hwf.dequesND d' dq' hold
  · intro d' dq' cid'' h' hmem
    rw [isSome_lookupA_setA]
    rcases lookupA_setA_cases h' with ⟨hk, hw⟩ | ⟨hk, hold⟩
    · rw [hw] at hmem
      rcases List.mem_append.mp hmem with hm | hm
      · right
        cases he : lookupA st.connectionsByDomain d with
        | some dq0 => exact hwf.live d dq0 cid'' he (by simpa [dequeOf, he] using hm)
        | none => simp [dequeOf, he] at hm
      · left
        simpa using hm
    · exact Or.inr (hwf.live d' dq' cid'' hold hmem)
  · intro cid' c' d' h'
    simp only [dequeOf]
    rcases lookupA_setA_cases h' with ⟨hk, hw⟩ | ⟨hk, hold⟩
    · rw [hk, hw]
      by_cases hdd : d' = d
      · rw [hdd, lookupA_setA_self]
        simp [lookupA_setA_self]
      · rw [lookupA_setA_ne _ _ _ _ hdd]
        rw [show lookupA (setA c.domains d tok) d' = lookupA c.domains d' from
          lookupA_setA_ne _ _ _ _ hdd]
        exact hwf.bij cid c d' hc
    · by_cases hdd : d' = d
      · rw [hdd, lookupA_setA_self]
        simp only [Option.getD_some]
        constructor
        · intro hmem
          rcases List.mem_append.mp hmem with hm | hm
          · exact (hwf.bij cid' c' d hold).mp hm
          · exact absurd (by simpa using hm) hk
        · intro hs
          exact List.mem_append.mpr (Or.inl ((hwf.bij cid' c' d hold).mpr hs))
      · rw [lookupA_setA_ne _ _ _ _ hdd]
        exact hwf.bij cid' c' d' hold

theorem unregisterConnection_ok {st st' : BrokerState} {cid d : Bytes}
    (h : unregisterConnection st cid d = .ok st') :
    ∃ dq c, lookupA st.connectionsByDomain d = some dq ∧ cid ∈ dq ∧
      lookupA st.connections cid = some c ∧ (lookupA c.domains d).isSome ∧
      st' = ⟨setA st.connections cid ⟨c.uid, eraseA c.domains d⟩,
             if eraseFirst dq cid = [] then eraseA st.connectionsByDomain d
             else setA st.connectionsByDomain d (eraseFirst dq cid)⟩ := by
  unfold unregisterConnection at h
  split at h
  · exact absurd h (by simp)
  next dq heq =>
    split at h
    next hmem =>
      simp only [] at h
      split at h
      next c hc =>
        split at h
        next hs =>
          refine ⟨dq, c, heq, hmem, hc, hs, ?_⟩
          injection h with h
          exact h.symm
        · exact absurd h (by simp)
      · exact absurd h (by simp)
    · exact absurd h (by simp)

theorem wf_unregisterConnection {st st' : BrokerState} {cid d : Bytes}
    (hwf : Wf st) (h : unregisterConnection st cid d = .ok st') : Wf st' := by
  obtain ⟨dq, c, heq, hmem, hc, hs, hst⟩ := unregisterConnection_ok h
  have hdnodup : dq.Nodup := hwf.dequesND d dq heq
  have hcidmem : cid ∈ keysA st.connections := lookupA_mem_keysA _ _ _ hc
  have hdmem : d ∈ keysA st.connectionsByDomain := lookupA_mem_keysA _ _ _ heq
  have hmemiff : ∀ x, x ∈ eraseFirst dq cid ↔ (x ∈ dq ∧ x ≠ cid) := by
    intro x
    by_cases hx : x = cid
    · rw [hx]
      simp [not_mem_eraseFirst_self dq cid hdnodup]
    · simp [mem_eraseFirst_of_ne dq cid x hx, hx]
  rw [hst]
  refine ⟨?_, ?_, ?_, ?_, ?_, ?_, ?_⟩
  · rw [keysA_setA_mem _ _ _ hcidmem]
    exact hwf.connKeys
  · split
    · exact (keysA_eraseA_sublist _ _).nodup hwf.domKeys
    · rw [keysA_setA_mem _ _ _ hdmem]
      exact hwf.domKeys
  · intro cid' c' h'
    rcases lookupA_setA_cases h' with ⟨hk, hw⟩ | ⟨hk, hold⟩
    · rw [hw]
      show (keysA (eraseA c.domains d)).Nodup
      exact (keysA_eraseA_sublist _ _).nodup (hwf.connDomKeys cid c hc)
    · exact hwf.connDomKeys cid' c' hold
  · intro d' dq' h'
    by_cases hef : eraseFirst dq cid = []
    · rw [if_pos hef] at h'
      by_cases hdd : d' = d
      · rw [hdd, lookupA_eraseA_self _ _ hwf.domKeys] at h'
        exact absurd h' (by simp)
      · rw [lookupA_eraseA_ne _ _ _ hdd] at h'
        exact hwf.dequesNE d' dq' h'
    · rw [if_neg hef] at h'
      rcases lookupA_setA_cases h' with ⟨hk, hw⟩ | ⟨hk, hold⟩
      · rw [hw]
        exact hef
      · exact hwf.dequesNE d' dq' hold
  · intro d' dq' h'
    by_cases hef : eraseFirst dq cid = []
    · rw [if_pos hef] at h'
      by_cases hdd : d' = d
      · rw [hdd, lookupA_eraseA_self _ _ hwf.domKeys] at h'
        exact absurd h' (by simp)
      · rw [lookupA_eraseA_ne _ _ _ hdd] at h'
        exact hwf.dequesND d' dq' h'
    · rw [if_neg hef] at h'
      rcases lookupA_setA_cases h' with ⟨hk, hw⟩ | ⟨hk, hold⟩
      · rw [hw]
        exact nodup_eraseFirst dq cid hdnodup
      · exact hwf.dequesND d' dq' hold
  · intro d' dq' cid'' h' hmem'
    rw [isSome_lookupA_setA]
    by_cases hef : eraseFirst dq cid = []
    · rw [if_pos hef] at h'
      by_cases hdd : d' = d
      · rw [hdd, lookupA_eraseA_self _ _ hwf.domKeys] at h'
        exact absurd h' (by simp)
      · rw [lookupA_eraseA_ne _ _ _ hdd] at h'
        exact Or.inr (hwf.live d' dq' cid'' h' hmem')
    · rw [if_neg hef] at h'
      rcases lookupA_setA_cases h' with ⟨hk, hw⟩ | ⟨hk, hold⟩
      · rw [hw] at hmem'
        exact Or.inr (hwf.live d dq cid'' heq ((hmemiff cid'').mp hmem').1)
      · exact Or.inr (hwf.live d' dq' cid'' hold hmem')
  · intro cid' c' d' h'
    simp only [dequeOf]
    have hdomd : ∀ x, x ∈ dq ↔ x ∈ dequeOf st d := by
      intro x
      simp [dequeOf, heq]
    rcases lookupA_setA_cases h' with ⟨hk, hw⟩ | ⟨hk, hold⟩
    · rw [hk, hw]
      by_cases hdd : d' = d
      · rw [hdd]
        show cid ∈ (lookupA _ d).getD [] ↔ (lookupA (eraseA c.domains d) d).isSome
        rw [lookupA_eraseA_self _ _ (hwf.connDomKeys cid c hc)]
        constructor
        · intro hx
          by_cases hef : eraseFirst dq cid = []
          · rw [if_pos hef, lookupA_eraseA_self _ _ hwf.domKeys] at hx
            simp at hx
          · rw [if_neg hef, lookupA_setA_self] at hx
            simp only [Option.getD_some] at hx
            exact absurd hx (not_mem_eraseFirst_self dq cid hdnodup)
        · intro hx
          simp at hx
      · have hl : lookupA (if eraseFirst dq cid = [] then eraseA st.connectionsByDomain d
            else setA st.connectionsByDomain d (eraseFirst dq cid)) d' =
            lookupA st.connectionsByDomain d' := by
          split
          · exact lookupA_eraseA_ne _ _ _ hdd
          · exact lookupA_setA_ne _ _ _ _ hdd
        rw [hl]
        rw [show lookupA (eraseA c.domains d) d' = lookupA c.domains d' from
          lookupA_eraseA_ne _ _ _ hdd]
        exact hwf.bij cid c d' hc
    · by_cases hdd : d' = d
      · rw [hdd]
        have hiff := hwf.bij cid' c' d hold
        have hmq : cid' ∈ dequeOf st d ↔ cid' ∈ eraseFirst dq cid := by
          rw [← hdomd cid']
          exact ((hmemiff cid').trans (and_iff_left hk)).symm
        by_cases hef : eraseFirst dq cid = []
        · rw [if_pos hef, lookupA_eraseA_self _ _ hwf.domKeys]
          simp only [Option.getD_none]
          rw [← hiff, hmq, hef]
        · rw [if_neg hef, lookupA_setA_self]
          simp only [Option.getD_some]
          rw [← hiff, hmq]
      · have hl : lookupA (if eraseFirst dq cid = [] then eraseA st.connectionsByDomain d
            else setA st.connectionsByDomain d (eraseFirst dq cid)) d' =
            lookupA st.connectionsByDomain d' := by
          split
          · exact lookupA_eraseA_ne _ _ _ hdd
          · exact lookupA_setA_ne _ _ _ _ hdd
        rw [hl]
        exact hwf.bij cid' c' d' hold

theorem getDirect_eq_some {byDom : List (Bytes × List Bytes)} {d : Bytes}
    {h : Bytes} {byDom' : List (Bytes × List Bytes)}
    (he : getDirect byDom d = some (h, byDom')) :
    ∃ t, lookupA byDom d = some (h :: t) ∧ byDom' = setA byDom d (t ++ [h]) := by
  unfold getDirect at he
  split at he
  next h0 t0 heq =>
    injection he with he
    injection he with he1 he2
    exact ⟨t0, by rw [← he1]; exact heq, by rw [← he1, ← he2]⟩
  next =>
    exact absurd he (by simp)

theorem wf_rotate {st : BrokerState} (hwf : Wf st) {d : Bytes} {h : Bytes}
    {byDom' : List (Bytes × List Bytes)}
    (he : getDirect st.connectionsByDomain d = some (h, byDom')) :
    Wf ⟨st.connections, byDom'⟩ := by
  obtain ⟨t, heq, hset⟩ := getDirect_eq_some he
  have hperm : (t ++ [h]).Perm (h :: t) := List.perm_append_singleton h t
  have hmemiff : ∀ x, x ∈ t ++ [h] ↔ x ∈ h :: t := fun x => hperm.mem_iff
  rw [hset]
  refine ⟨hwf.connKeys, ?_, hwf.connDomKeys, ?_, ?_, ?_, ?_⟩
  · rw [keysA_setA_mem _ _ _ (lookupA_mem_keysA _ _ _ heq)]
    exact hwf.domKeys
  · intro d' dq' h'
    rcases lookupA_setA_cases h' with ⟨hk, hw⟩ | ⟨hk, hold⟩
    · rw [hw]
      simp
    · exact hwf.dequesNE d' dq' hold
  · intro d' dq' h'
    rcases lookupA_setA_cases h' with ⟨hk, hw⟩ | ⟨hk, hold⟩
    · rw [hw]
      exact hperm.nodup_iff.mpr (hwf.dequesND d (h :: t) heq)
    · exact hwf.dequesND d' dq' hold
  · intro d' dq' cid'' h' hmem
    rcases lookupA_setA_cases h' with ⟨hk, hw⟩ | ⟨hk, hold⟩
    · rw [hw] at hmem
      exact hwf.live d (h :: t) cid'' heq ((hmemiff cid'').mp hmem)
    · exact hwf.live d' dq' cid'' hold hmem
  · intro cid' c' d' h'
    simp only [dequeOf]
    by_cases hdd : d' = d
    · rw [hdd, lookupA_setA_self]
      simp only [Option.getD_some]
      rw [hmemiff cid']
      have := hwf.bij cid' c' d h'
      simpa [dequeOf, heq] using this
    · rw [lookupA_setA_ne _ _ _ _ hdd]
      exact hwf.bij cid' c' d' h'

theorem wf_getConnectionFor {st : BrokerState} (hwf : Wf st) (target : Bytes)
    (allowLink : Bool) :
    Wf ⟨st.connections, (getConnectionFor st.connectionsByDomain target allowLink).2⟩ := by
  unfold getConnectionFor
  split
  next h byDom' he => exact wf_rotate hwf he
  next hnone =>
    split
    · split
      next h byDom' he => exact wf_rotate hwf he
      next => exact hwf
    · exact hwf

theorem unregisterConnection_succeeds {st : BrokerState} {cid : Bytes} {c : Conn}
    (hwf : Wf st) (hc : lookupA st.connections cid = some c) (d : Bytes)
    (hreg : (lookupA c.domains d).isSome) :
    ∃ st', unregisterConnection st cid d = .ok st' := by
  have hmem : cid ∈ dequeOf st d := (hwf.bij cid c d hc).mpr hreg
  obtain ⟨dq, heq⟩ : ∃ dq, lookupA st.connectionsByDomain d = some dq := by
    cases he : lookupA st.connectionsByDomain d with
    | some dq => exact ⟨dq, rfl⟩
    | none => simp [dequeOf, he] at hmem
  have hmemdq : cid ∈ dq := by simpa [dequeOf, heq] using hmem
  refine ⟨⟨setA st.connections cid ⟨c.uid, eraseA c.domains d⟩,
          if eraseFirst dq cid = [] then eraseA st.connectionsByDomain d
          else setA st.connectionsByDomain d (eraseFirst dq cid)⟩, ?_⟩
  simp only [unregisterConnection, heq, hc]
  rw [if_pos hmemdq, if_pos hreg]

theorem finishRegister_ok {st : BrokerState} {cid : Bytes} {c : Conn}
    (hwf : Wf st) (hc : lookupA st.connections cid = some c) (d tok : Bytes)
    (sent : List Outbound) :
    ∃ st2, finishRegister st cid d tok sent = .ok ⟨st2, sent, some [tok]⟩ ∧ Wf st2 ∧
      ∃ c', lookupA st2.connections cid = some c' ∧ lookupA c'.domains d = some tok := by
  by_cases hreg : (lookupA c.domains d).isSome
  · obtain ⟨st', hok⟩ := unregisterConnection_succeeds hwf hc d hreg
    obtain ⟨dq, c0, heq, hmem, hc0, hs0, hst'⟩ := unregisterConnection_ok hok
    have hc0c : c0 = c := by
      rw [hc0] at hc
      injection hc
    rw [hc0c] at hst'
    have hwf' := wf_unregisterConnection hwf hok
    have hc' : lookupA st'.connections cid = some ⟨c.uid, eraseA c.domains d⟩ := by
      rw [hst']
      exact lookupA_setA_self _ _ _
    have hnone : lookupA (eraseA c.domains d) d = none :=
      lookupA_eraseA_self _ _ (hwf.connDomKeys cid c hc)
    refine ⟨registerConnection st' cid d tok, ?_,
      wf_registerConnection hwf' hc' d tok hnone, ?_⟩
    · simp only [finishRegister, hc]
      rw [if_pos hreg, hok]
    · refine ⟨⟨c.uid, setA (eraseA c.domains d) d tok⟩, ?_, lookupA_setA_self _ _ _⟩
      show lookupA (registerConnection st' cid d tok).connections cid = _
      simp only [registerConnection, hc']
      exact lookupA_setA_self _ _ _
  · have hnone : lookupA c.domains d = none := by
      cases he : lookupA c.domains d with
      | none => rfl
      | some v => exact absurd (by simp [he]) hreg
    refine ⟨registerConnection st cid d tok, ?_,
      wf_registerConnection hwf hc d tok hnone, ?_⟩
    · simp only [finishRegister, hc]
      rw [if_neg hreg]
    · refine ⟨⟨c.uid, setA c.domains d tok⟩, ?_, lookupA_setA_self _ _ _⟩
      show lookupA (registerConnection st cid d tok).connections cid = _
      simp only [registerConnection, hc]
      exact lookupA_setA_self _ _ _

theorem wf_registerRequest {hashFn : Bytes → Bytes → Bytes → Bytes}
    {secret : Bytes} {st : BrokerState} {cid : Bytes} {conn : Conn}
    {domain : Bytes} {frames : List Bytes}
    {subReply : Except RequestError (List Bytes)} {res : PResult}
    (hwf : Wf st) (hc : lookupA st.connections cid = some conn)
    (h : registerRequest hashFn secret st cid conn domain frames subReply = .ok res) :
    Wf res.state ∧ ∀ t, res.reply = some [t] →
      ∃ c', lookupA res.state.connections cid = some c' ∧
        lookupA c'.domains domain = some t := by
  unfold registerRequest at h
  split at h
  · exact absurd h (by simp)
  next credentials rest =>
    split at h
    · split at h
      · exact absurd h (by simp)
      next ok hv =>
        split at h
        · obtain ⟨st2, hfin, hwf2, c', hc', htok⟩ := finishRegister_ok hwf hc domain [] []
          rw [hfin] at h
          injection h with h
          rw [← h]
          refine ⟨hwf2, ?_⟩
          intro t ht
          simp only at ht
          injection ht with ht
          have : t = [] := by
            injection ht.symm with h1 h2
          rw [this]
          exact ⟨c', hc', htok⟩
        · exact absurd h (by simp)
    · split at h
      · exact absurd h (by simp)
      next tgt byDom' heq =>
        split at h
        · exact absurd h (by simp)
        next reply =>
          split at h
          next token =>
            have hwf' : Wf (⟨st.connections, byDom'⟩ : BrokerState) := by
              have hx := wf_getConnectionFor hwf SERVICE_AUTHENTICATION_DOMAIN true
              rw [heq] at hx
              exact hx
            have hc2 : lookupA (⟨st.connections, byDom'⟩ : BrokerState).connections cid =
                some conn := hc
            obtain ⟨st2, hfin, hwf2, c', hc', htok⟩ :=
              finishRegister_ok hwf' hc2 domain token
                [tgt.request SERVICE_AUTHENTICATION_DOMAIN domain
                  (lookupA conn.domains domain) [bytes "authenticate", credentials]]
            rw [hfin] at h
            injection h with h
            rw [← h]
            refine ⟨hwf2, ?_⟩
            intro t ht
            simp only at ht
            injection ht with ht
            have : t = token := by
              injection ht.symm with h1 h2
            rw [this]
            exact ⟨c', hc', htok⟩
          next hne => exact absurd h (by simp)

theorem wf_unregisterRequest {st : BrokerState} {cid domain : Bytes} {res : PResult}
    (hwf : Wf st) (h : unregisterRequest st cid domain = .ok res) : Wf res.state := by
  unfold unregisterRequest at h
  split at h
  · exact absurd h (by simp)
  next st' hok =>
    injection h with h
    rw [← h]
    exact wf_unregisterConnection hwf hok

theorem wf_requestRequest {st : BrokerState} {conn : Conn} {domain : Bytes}
    {frames : List Bytes} {subReply : Except RequestError (List Bytes)} {res : PResult}
    (hwf : Wf st) (h : requestRequest st conn domain frames subReply = .ok res) :
    Wf res.state := by
  unfold requestRequest at h
  split at h
  · split at h
    · exact absurd h (by simp)
    next targetDomain args =>
      split at h
      · exact absurd h (by simp)
      next tgt byDom' heq =>
        split at h
        · exact absurd h (by simp)
        next r =>
          injection h with h
          rw [← h]
          have hx := wf_getConnectionFor hwf targetDomain true
          rw [heq] at hx
          exact hx
  · exact absurd h (by simp)

theorem wf_queryRequest {st : BrokerState} {conn : Conn} {domain : Bytes}
    {frames : List Bytes} {res : PResult}
    (hwf : Wf st) (h : queryRequest st conn domain frames = .ok res) : Wf res.state := by
  unfold queryRequest at h
  split at h
  · split at h
    · exact absurd h (by simp)
    next targetDomain args =>
      split at h
      · exact absurd h (by simp)
      next tgt byDom' heq =>
        injection h with h
        rw [← h]
        have hx := wf_getConnectionFor hwf targetDomain false
        rw [heq] at hx
        exact hx
  · exact absurd h (by simp)

theorem wf_transmitRequest {st : BrokerState} {conn : Conn} {domain : Bytes}
    {frames : List Bytes} {subReply : Except RequestError (List Bytes)} {res : PResult}
    (hwf : Wf st) (h : transmitRequest st conn domain frames subReply = .ok res) :
    Wf res.state := by
  unfold transmitRequest at h
  split at h
  · split at h
    · exact absurd h (by simp)
    next targetDomain rest =>
      split at h
      · exact absurd h (by simp)
      next tgt byDom' heq =>
        split at h
        next sourceDomain sourceToken args =>
          split at h
          · exact absurd h (by simp)
          next r =>
            injection h with h
            rw [← h]
            have hx := wf_getConnectionFor hwf targetDomain false
            rw [heq] at hx
            exact hx
        next => exact absurd h (by simp)
  · exact absurd h (by simp)

theorem wf_processRequest {hashFn : Bytes → Bytes → Bytes → Bytes} {secret : Bytes}
    {st : BrokerState} {cid : Bytes} {frames : List Bytes}
    {subReply : Except RequestError (List Bytes)} {res : PResult}
    (hwf : Wf st) (h : processRequest hashFn secret st cid frames subReply = .ok res) :
    Wf res.state := by
  unfold processRequest at h
  split at h
  · exact absurd h (by simp)
  next conn hc =>
    split at h
    · exact absurd h (by simp)
    next command frames2 =>
      split at h
      · injection h with h
        rw [← h]
        exact hwf
      · split at h
        · exact absurd h (by simp)
        next domain frames3 =>
          split at h
          · exact (wf_registerRequest hwf hc h).1
          · split at h
            · exact wf_unregisterRequest hwf h
            · split at h
              · exact wf_requestRequest hwf h
              · split at h
                · exact wf_queryRequest hwf h
                · split at h
                  · exact wf_transmitRequest hwf h
                  · exact absurd h (by simp)

theorem wf_unregisterAll (ds : List Bytes) {st st' : BrokerState} {cid : Bytes} {c : Conn}
    (hwf : Wf st) (hc : lookupA st.connections cid = some c)
    (h : unregisterAll st cid ds = .ok st') :
    Wf st' ∧ ∃ c', lookupA st'.connections cid = some c' ∧
      ∀ d, (lookupA c'.domains d).isSome → ((lookupA c.domains d).isSome ∧ d ∉ ds) := by
  induction ds generalizing st c with
  | nil =>
    unfold unregisterAll at h
    injection h with h
    rw [← h]
    exact ⟨hwf, c, hc, fun d hd => ⟨hd, by simp⟩⟩
  | cons d ds ih =>
    unfold unregisterAll at h
    split at h
    · exact absurd h (by simp)
    next st1 hok =>
      have hwf1 := wf_unregisterConnection hwf hok
      obtain ⟨dq, c0, heq, hmem, hc0, hs0, hst1⟩ := unregisterConnection_ok hok
      have hc0c : c0 = c := by
        rw [hc0] at hc
        injection hc
      rw [hc0c] at hst1
      have hc1 : lookupA st1.connections cid = some ⟨c.uid, eraseA c.domains d⟩ := by
        rw [hst1]
        exact lookupA_setA_self _ _ _
      obtain ⟨hwf', c', hc', hprop⟩ := ih hwf1 hc1 h
      refine ⟨hwf', c', hc', ?_⟩
      intro d' hd'
      obtain ⟨hsome, hnot⟩ := hprop d' hd'
      by_cases hdd : d' = d
      · rw [hdd, lookupA_eraseA_self _ _ (hwf.connDomKeys cid c hc)] at hsome
        exact absurd hsome (by simp)
      · rw [lookupA_eraseA_ne _ _ _ hdd] at hsome
        refine ⟨hsome, ?_⟩
        simp only [List.mem_cons]
        push_neg
        exact ⟨hdd, hnot⟩

theorem wf_removeConnection {st st' : BrokerState} {cid : Bytes}
    (hwf : Wf st) (h : removeConnection st cid = .ok st') : Wf st' := by
  unfold removeConnection at h
  split at h
  · exact absurd h (by simp)
  next c hc =>
    split at h
    · exact absurd h (by simp)
    next st1 hall =>
      injection h with h
      obtain ⟨hwf1, c', hc', hprop⟩ := wf_unregisterAll (keysA c.domains) hwf hc hall
      have hcnone : ∀ d, lookupA c'.domains d = none := by
        intro d
        cases he : lookupA c'.domains d with
        | none => rfl
        | some v =>
          obtain ⟨hsome, hnm⟩ := hprop d (by simp [he])
          obtain ⟨w, hw⟩ := Option.isSome_iff_exists.mp hsome
          exact absurd (lookupA_mem_keysA _ _ _ hw) hnm
      have hnotdeque : ∀ d, cid ∉ dequeOf st1 d := by
        intro d hm
        have := (hwf1.bij cid c' d hc').mp hm
        rw [hcnone d] at this
        simp at this
      rw [← h]
      refine ⟨?_, hwf1.domKeys, ?_, hwf1.dequesNE, hwf1.dequesND, ?_, ?_⟩
      · exact (keysA_eraseA_sublist _ _).nodup hwf1.connKeys
      · intro cid2 c2 h2
        by_cases hcc : cid2 = cid
        · rw [hcc, lookupA_eraseA_self _ _ hwf1.connKeys] at h2
          exact absurd h2 (by simp)
        · rw [lookupA_eraseA_ne _ _ _ hcc] at h2
          exact hwf1.connDomKeys cid2 c2 h2
      · intro d dq cid2 hdq hm
        by_cases hcc : cid2 = cid
        · rw [hcc] at hm
          exact absurd (show cid ∈ dequeOf st1 d by simp [dequeOf, hdq, hm]) (hnotdeque d)
        · rw [lookupA_eraseA_ne _ _ _ hcc]
          exact hwf1.live d dq cid2 hdq hm
      · intro cid2 c2 d h2
        by_cases hcc : cid2 = cid
        · rw [hcc, lookupA_eraseA_self _ _ hwf1.connKeys] at h2
          exact absurd h2 (by simp)
        · rw [lookupA_eraseA_ne _ _ _ hcc] at h2
          exact hwf1.bij cid2 c2 d h2

theorem rrTrace_split (j : Nat) : ∀ (dq : List Bytes) (m : Nat), j ≤ dq.length →
    rrTrace dq (j + m) = dq.take j ++ rrTrace (dq.rotate j) m := by
  induction j with
  | zero =>
    intro dq m _
    simp [List.rotate_zero]
  | succ j ih =>
    intro dq m hj
    cases dq with
    | nil => simp at hj
    | cons a t =>
      have hjt : j ≤ t.length := by
        simpa using Nat.succ_le_succ_iff.mp hj
      have hlen : j ≤ (t ++ [a]).length := by
        simp
        omega
      have h1 : rrTrace (a :: t) (j + 1 + m) = a :: rrTrace (t ++ [a]) (j + m) := by
        have : j + 1 + m = (j + m) + 1 := by omega
        rw [this]
        rfl
      rw [h1, ih (t ++ [a]) m hlen]
      have h2 : (t ++ [a]).take j = t.take j := by
        simp [List.take_append_eq_append_take, Nat.sub_eq_zero_of_le hjt]
      rw [h2, List.rotate_cons_succ]
      rfl

theorem rrTrace_cycle (dq : List Bytes) (m : Nat) :
    rrTrace dq (dq.length + m) = dq ++ rrTrace dq m := by
  have := rrTrace_split dq.length dq m (le_refl _)
  rwa [List.take_length, List.rotate_length] at this

theorem rrTrace_count (K : Nat) (dq : List Bytes) (e : Bytes) :
    (rrTrace dq (K * dq.length)).count e = K * dq.count e := by
  induction K with
  | zero => simp [rrTrace]
  | succ K ih =>
    have h1 : (K + 1) * dq.length = dq.length + K * dq.length := by ring
    rw [h1, rrTrace_cycle, List.count_append, ih]
    ring

theorem dispatchN_eq_rrTrace (n : Nat) : ∀ (st : BrokerState) (d : Bytes)
    (dq : List Bytes), lookupA st.connectionsByDomain d = some dq → dq ≠ [] →
    dispatchN d st n = rrTrace dq n := by
  induction n with
  | zero =>
    intro st d dq _ _
    simp [dispatchN, rrTrace]
  | succ n ih =>
    intro st d dq heq hne
    cases dq with
    | nil => exact absurd rfl hne
    | cons h t =>
      have hgd : getDirect st.connectionsByDomain d =
          some (h, setA st.connectionsByDomain d (t ++ [h])) := by
        simp [getDirect, heq]
      have hgc : getConnectionFor st.connectionsByDomain d true =
          (some (.direct h), setA st.connectionsByDomain d (t ++ [h])) := by
        unfold getConnectionFor
        rw [hgd]
      show (match getConnectionFor st.connectionsByDomain d true with
        | (some (.direct cid), byDom') =>
            cid :: dispatchN d ⟨st.connections, byDom'⟩ n
        | _ => []) = rrTrace (h :: t) (n + 1)
      rw [hgc]
      have hih := ih ⟨st.connections, setA st.connectionsByDomain d (t ++ [h])⟩ d
        (t ++ [h]) (lookupA_setA_self _ _ _) (by simp)
      simp only []
      rw [hih]
      rfl

/- ## Connection uid stability -/

theorem uidOf_registerConnection (st : BrokerState) (cid d tok : Bytes) (cid' : Bytes) :
    uidOf (registerConnection st cid d tok) cid' = uidOf st cid' := by
  unfold registerConnection uidOf
  simp only []
  cases hc : lookupA st.connections cid with
  | none => rfl
  | some c =>
    by_cases hcc : cid' = cid
    · rw [hcc, lookupA_setA_self, hc]
      rfl
    · rw [lookupA_setA_ne _ _ _ _ hcc]

theorem uidOf_unregisterConnection {st st' : BrokerState} {cid d : Bytes}
    (h : unregisterConnection st cid d = .ok st') (cid' : Bytes) :
    uidOf st' cid' = uidOf st cid' := by
  obtain ⟨dq, c, heq, hmem, hc, hs, hst⟩ := unregisterConnection_ok h
  rw [hst]
  unfold uidOf
  simp only []
  by_cases hcc : cid' = cid
  · rw [hcc, lookupA_setA_self, hc]
    rfl
  · rw [lookupA_setA_ne _ _ _ _ hcc]

theorem uidOf_finishRegister {st : BrokerState} {cid domain token : Bytes}
    {sent : List Outbound} {res : PResult}
    (h : finishRegister st cid domain token sent = .ok res) (cid' : Bytes) :
    uidOf res.state cid' = uidOf st cid' := by
  unfold finishRegister at h
  cases hc : lookupA st.connections cid with
  | none =>
    rw [hc] at h
    simp only [] at h
    rw [if_neg (by simp)] at h
    injection h with h
    rw [← h]
    simp only []
    rw [uidOf_registerConnection]
  | some c =>
    rw [hc] at h
    simp only [] at h
    by_cases hreg : (lookupA c.domains domain).isSome
    · rw [if_pos (by simp [hreg])] at h
      split at h
      · exact absurd h (by simp)
      next st' hok =>
        injection h with h
        rw [← h]
        simp only []
        rw [uidOf_registerConnection]
        exact uidOf_unregisterConnection hok cid'
    · rw [if_neg (by simp [hreg])] at h
      injection h with h
      rw [← h]
      simp only []
      rw [uidOf_registerConnection]

theorem uidOf_registerRequest {hashFn : Bytes → Bytes → Bytes → Bytes}
    {secret : Bytes} {st : BrokerState} {cid : Bytes} {conn : Conn}
    {domain : Bytes} {frames : List Bytes}
    {subReply : Except RequestError (List Bytes)} {res : PResult}
    (h : registerRequest hashFn secret st cid conn domain frames subReply = .ok res)
    (cid' : Bytes) : uidOf res.state cid' = uidOf st cid' := by
  unfold registerRequest at h
  split at h
  · exact absurd h (by simp)
  next credentials rest =>
    split at h
    · split at h
      · exact absurd h (by simp)
      next ok hv =>
        split at h
        · exact uidOf_finishRegister h cid'
        · exact absurd h (by simp)
    · split at h
      · exact absurd h (by simp)
      next tgt byDom' heq =>
        split at h
        · exact absurd h (by simp)
        next reply =>
          split at h
          next token => exact uidOf_finishRegister h cid'
          next hne => exact absurd h (by simp)

theorem uidOf_unregisterAll (ds : List Bytes) : ∀ {st st' : BrokerState} {cid : Bytes},
    unregisterAll st cid ds = .ok st' → ∀ cid', uidOf st' cid' = uidOf st cid' := by
  induction ds with
  | nil =>
    intro st st' cid h cid'
    unfold unregisterAll at h
    injection h with h
    rw [h]
  | cons d ds ih =>
    intro st st' cid h cid'
    unfold unregisterAll at h
    split at h
    · exact absurd h (by simp)
    next st1 hok =>
      rw [ih h cid']
      exact uidOf_unregisterConnection hok cid'

theorem uidOf_processRequest {hashFn : Bytes → Bytes → Bytes → Bytes} {secret : Bytes}
    {st : BrokerState} {cid : Bytes} {frames : List Bytes}
    {subReply : Except RequestError (List Bytes)} {res : PResult}
    (h : processRequest hashFn secret st cid frames subReply = .ok res)
    (cid' : Bytes) : uidOf res.state cid' = uidOf st cid' := by
  unfold processRequest at h
  split at h
  · exact absurd h (by simp)
  next conn hc =>
    split at h
    · exact absurd h (by simp)
    next command frames2 =>
      split at h
      · injection h with h
        rw [← h]
      · split at h
        · exact absurd h (by simp)
        next domain frames3 =>
          split at h
          · exact uidOf_registerRequest h cid'
          · split at h
            · unfold unregisterRequest at h
              split at h
              · exact absurd h (by simp)
              next st1 hok =>
                injection h with h
                rw [← h]
                exact uidOf_unregisterConnection hok cid'
            · split at h
              · unfold requestRequest at h
                split at h
                · split at h
                  · exact absurd h (by simp)
                  next targetDomain args =>
                    split at h
                    · exact absurd h (by simp)
                    next tgt byDom' heq =>
                      split at h
                      · exact absurd h (by simp)
                      next r =>
                        injection h with h
                        rw [← h]
                        rfl
                · exact absurd h (by simp)
              · split at h
                · unfold queryRequest at h
                  split at h
                  · split at h
                    · exact absurd h (by simp)
                    next targetDomain args =>
                      split at h
                      · exact absurd h (by simp)
                      next tgt byDom' heq =>
                        injection h with h
                        rw [← h]
                        rfl
                  · exact absurd h (by simp)
                · split at h
                  · unfold transmitRequest at h
                    split at h
                    · split at h
                      · exact absurd h (by simp)
                      next targetDomain rest =>
                        split at h
                        · exact absurd h (by simp)
                        next tgt byDom' heq =>
                          split at h
                          next sourceDomain sourceToken args =>
                            split at h
                            · exact absurd h (by simp)
                            next r =>
                              injection h with h
                              rw [← h]
                              rfl
                          next => exact absurd h (by simp)
                    · exact absurd h (by simp)
                  · exact absurd h (by simp)

/- ## Claim theorems -/

/-- An arbitrary concrete stand-in for the opaque Blake2b keyed hash, used
only to instantiate witnesses. -/
def hfn0 : Bytes → Bytes → Bytes → Bytes := fun k s p => k ++ s ++ p

theorem uidOf_removeConnection {st st' : BrokerState} {cid : Bytes}
    (h : removeConnection st cid = .ok st') (cid' : Bytes) (hne : cid' ≠ cid) :
    uidOf st' cid' = uidOf st cid' := by
  unfold removeConnection at h
  split at h
  · exact absurd h (by simp)
  next c hc =>
    split at h
    · exact absurd h (by simp)
    next st1 hall =>
      injection h with h
      rw [← h]
      unfold uidOf
      simp only []
      rw [lookupA_eraseA_ne _ _ _ hne]
      exact uidOf_unregisterAll (keysA c.domains) hall cid'

/-- C9: for every inbound request, the peer protocol engine writes exactly one
response for its request id, chosen by the handler outcome: a normal return
becomes a code-200 response with the returned frames (`None` collapses to no
frames), a raised `CallError` becomes an error response with its code and
message, cancellation becomes 408 "Request timed out.", and any other
exception becomes 500 "Internal error.". -/
theorem C9_theorem (requestId : Bytes) (opt : Option (List Bytes))
    (code : Nat) (message : Bytes) :
    ppeProcessRequest requestId (.ok opt) =
      bytes "response" :: requestId :: bytes "200" :: opt.getD [] ∧
    ppeProcessRequest requestId (.callError code message) =
      [bytes "response", requestId, natBytes code, message] ∧
    ppeProcessRequest requestId .cancelled =
      [bytes "response", requestId, bytes "408", bytes "Request timed out."] ∧
    ppeProcessRequest requestId .exn =
      [bytes "response", requestId, bytes "500", bytes "Internal error."] :=
  ⟨rfl, rfl, by simp [ppeProcessRequest, sendErrorResponse]; decide,
    by simp [ppeProcessRequest, sendErrorResponse]; decide⟩

/-- C10: a `ping` request succeeds with no precondition: even for an identity
the broker has never seen (the connection is created by this very frame), the
broker replies with the connection's uid before reading any domain frame and
without touching the domain registry. -/
theorem C10_theorem (hashFn : Bytes → Bytes → Bytes → Bytes) (secret : Bytes)
    (st : BrokerState) (identity freshUid : Bytes) (rest : List Bytes)
    (subReply : Except RequestError (List Bytes)) :
    processRequest hashFn secret (refreshConnection st identity freshUid) identity
      (bytes "ping" :: rest) subReply =
      .ok ⟨refreshConnection st identity freshUid, [],
           some [(uidOf (refreshConnection st identity freshUid) identity).getD []]⟩ ∧
    (refreshConnection st identity freshUid).connectionsByDomain =
      st.connectionsByDomain ∧
    (uidOf (refreshConnection st identity freshUid) identity).isSome := by
  cases he : lookupA st.connections identity with
  | some c =>
    have hst : refreshConnection st identity freshUid = st := by
      simp [refreshConnection, he]
    rw [hst]
    refine ⟨?_, rfl, ?_⟩
    · unfold processRequest
      rw [he]
      simp [uidOf, he]
    · simp [uidOf, he]
  | none =>
    have hst : refreshConnection st identity freshUid =
        addConnection st identity freshUid := by
      simp [refreshConnection, he]
    rw [hst]
    have hl : lookupA (addConnection st identity freshUid).connections identity =
        some ⟨freshUid, []⟩ := lookupA_setA_self _ _ _
    refine ⟨?_, rfl, ?_⟩
    · unfold processRequest
      rw [hl]
      simp [uidOf, hl]
    · simp [uidOf, hl]

theorem count_one_of_nodup (l : List Bytes) (e : Bytes) (hnd : l.Nodup)
    (he : e ∈ l) : l.count e = 1 := by
  induction l with
  | nil => simp at he
  | cons a t ih =>
    simp only [List.nodup_cons] at hnd
    rcases List.mem_cons.mp he with hea | hm
    · rw [hea]
      have hnt : t.count a = 0 := by
        rw [List.count_eq_zero]
        exact hnd.1
      simp [List.count_cons, hnt]
    · have hne' : a ≠ e := fun hcontra => hnd.1 (hcontra ▸ hm)
      simp [List.count_cons, hne', ih hnd.2 hm]

/-- C6: round-robin fairness: when a domain's deque holds N distinct
connections, K·N successive dispatches select each connection exactly K times,
and the dispatch trace is exactly the head-and-rotate-by-one trace of the
deque. -/
theorem C6_theorem (st : BrokerState) (d : Bytes) (dq : List Bytes) (K : Nat)
    (e : Bytes) (h : lookupA st.connectionsByDomain d = some dq) (hne : dq ≠ [])
    (hnd : dq.Nodup) (he : e ∈ dq) :
    (dispatchN d st (K * dq.length)).count e = K ∧
    ∀ n, dispatchN d st n = rrTrace dq n := by
  have htr := fun n => dispatchN_eq_rrTrace n st d dq h hne
  refine ⟨?_, htr⟩
  rw [htr, rrTrace_count, count_one_of_nodup dq e hnd he, Nat.mul_one]

/-- Witness for C6: two connections `c1`, `c2` on domain `e`, four dispatches,
each selected exactly twice. -/
theorem C6_witness :
    lookupA (⟨[], [(bytes "e", [bytes "c1", bytes "c2"])]⟩ :
        BrokerState).connectionsByDomain (bytes "e") =
      some [bytes "c1", bytes "c2"] ∧
    (dispatchN (bytes "e") ⟨[], [(bytes "e", [bytes "c1", bytes "c2"])]⟩
        (2 * ([bytes "c1", bytes "c2"] : List Bytes).length)).count (bytes "c1") = 2 :=
  ⟨by decide,
   (C6_theorem ⟨[], [(bytes "e", [bytes "c1", bytes "c2"])]⟩ (bytes "e")
     [bytes "c1", bytes "c2"] 2 (bytes "c1") (by decide) (by decide) (by decide)
     (by decide)).1⟩

/-- C1 counterexample: one broker, two connections (`uuid4` freshness
witnessed by distinct uids `[0]` and `[1]`): the two `ping` replies carry
different id bytes, so the id is not shared across connections of one broker
process. -/
theorem C1_counterexample :
    processRequest hfn0 [] (addConnection (addConnection ⟨[], []⟩ (bytes "A") [0])
        (bytes "B") [1]) (bytes "A") [bytes "ping"] (.ok []) =
      .ok ⟨addConnection (addConnection ⟨[], []⟩ (bytes "A") [0]) (bytes "B") [1],
           [], some [[0]]⟩ ∧
    processRequest hfn0 [] (addConnection (addConnection ⟨[], []⟩ (bytes "A") [0])
        (bytes "B") [1]) (bytes "B") [bytes "ping"] (.ok []) =
      .ok ⟨addConnection (addConnection ⟨[], []⟩ (bytes "A") [0]) (bytes "B") [1],
           [], some [[1]]⟩ ∧
    ([[0]] : List Bytes) ≠ [[1]] :=
  ⟨by decide, by decide, by decide⟩

/-- C1 amended: the id returned by `ping` is per-connection, not per-broker:
every `ping` on a connection returns the uid stored in that connection object
(assigned by `uuid4()` at connection creation), and no broker request
processing or connection removal ever changes the uid of a stored connection
- so the id is constant for the lifetime of each connection, while different
connections of the same broker may return different ids. -/
theorem C1_theorem :
    (∀ (hashFn : Bytes → Bytes → Bytes → Bytes) (secret : Bytes)
       (st : BrokerState) (cid : Bytes) (conn : Conn) (rest : List Bytes)
       (subReply : Except RequestError (List Bytes)),
       lookupA st.connections cid = some conn →
       processRequest hashFn secret st cid (bytes "ping" :: rest) subReply =
         .ok ⟨st, [], some [conn.uid]⟩) ∧
    (∀ (hashFn : Bytes → Bytes → Bytes → Bytes) (secret : Bytes)
       (st : BrokerState) (cid : Bytes) (frames : List Bytes)
       (subReply : Except RequestError (List Bytes)) (res : PResult),
       processRequest hashFn secret st cid frames subReply = .ok res →
       ∀ cid', uidOf res.state cid' = uidOf st cid') ∧
    (∀ (st st' : BrokerState) (cid : Bytes), removeConnection st cid = .ok st' →
       ∀ cid', cid' ≠ cid → uidOf st' cid' = uidOf st cid') := by
  refine ⟨?_, ?_, ?_⟩
  · intro hashFn secret st cid conn rest subReply hc
    unfold processRequest
    rw [hc]
    simp
  · intro hashFn secret st cid frames subReply res h cid'
    exact uidOf_processRequest h cid'
  · intro st st' cid h cid' hne
    exact uidOf_removeConnection h cid' hne

/-- Witness for C1 amended: a concrete `ping` on a stored connection returns
its stored uid. -/
theorem C1_witness :
    lookupA (addConnection (⟨[], []⟩ : BrokerState) (bytes "A") [0]).connections
        (bytes "A") = some ⟨[0], []⟩ ∧
    processRequest hfn0 [] (addConnection (⟨[], []⟩ : BrokerState) (bytes "A") [0])
        (bytes "A") [bytes "ping"] (.ok []) =
      .ok ⟨addConnection (⟨[], []⟩ : BrokerState) (bytes "A") [0], [], some [[0]]⟩ :=
  ⟨by decide,
   C1_theorem.1 hfn0 [] (addConnection (⟨[], []⟩ : BrokerState) (bytes "A") [0])
     (bytes "A") ⟨[0], []⟩ [] (.ok []) (by decide)⟩

/-- C4 counterexample: a `response` frame whose request id is not pending (the
correlator is empty) is not a silent no-op: processing it raises an
`AssertionError` instead of returning the unchanged correlator. -/
theorem C4_counterexample :
    processResponse ([] : List (Bytes × FutState)) (bytes "7") [bytes "200"] =
      .error (.exn "AssertionError") ∧
    ∀ p, processResponse ([] : List (Bytes × FutState)) (bytes "7") [bytes "200"] ≠
      .ok p := by
  have h1 : processResponse ([] : List (Bytes × FutState)) (bytes "7") [bytes "200"] =
      .error (.exn "AssertionError") := by decide
  refine ⟨h1, ?_⟩
  intro p hp
  rw [h1] at hp
  exact absurd hp (by simp)

/-- C4 amended: an inbound `response` whose request id is not currently
pending outbound fails the `assert` in the correlator (an `AssertionError` in
the processing task, whatever the rest of the frames are); nothing is sent and
no future is resolved. -/
theorem C4_theorem (pending : List (Bytes × FutState)) (requestId : Bytes)
    (frames : List Bytes) (h : lookupA pending requestId = none) :
    processResponse pending requestId frames = .error (.exn "AssertionError") := by
  have hse : ∀ e, setRequestException pending requestId e =
      .error (.exn "AssertionError") := by
    intro e
    simp [setRequestException, h]
  have hsr : ∀ fs, setRequestResult pending requestId fs =
      .error (.exn "AssertionError") := by
    intro fs
    simp [setRequestResult, h]
  unfold processResponse
  cases frames with
  | nil => rw [hse invalidReplyError]
  | cons codeFrame rest =>
    cases hpi : parseIntBytes codeFrame with
    | none => simp [hpi, hse invalidReplyError]
    | some code =>
      by_cases hc : code = 200
      · simp [hpi, hc, hsr]
      · cases rest with
        | nil => simp [hpi, hc, hse invalidReplyError]
        | cons m r2 =>
          cases hd : decodeAscii m with
          | none => simp [hpi, hc, hd, hse]
          | some msg => simp [hpi, hc, hd, hse]

/-- Witness for C4 amended: a pending map holding only request id `1` receives
a 200 response for the unknown id `2`. -/
theorem C4_witness :
    lookupA [(bytes "1", FutState.pending)] (bytes "2") = none ∧
    processResponse [(bytes "1", FutState.pending)] (bytes "2")
      [bytes "200", bytes "ok"] = .error (.exn "AssertionError") :=
  ⟨by decide,
   C4_theorem [(bytes "1", FutState.pending)] (bytes "2")
     [bytes "200", bytes "ok"] (by decide)⟩

theorem processRequest_transmit (hashFn : Bytes → Bytes → Bytes → Bytes)
    (secret : Bytes) (st : BrokerState) (cid : Bytes) (conn : Conn)
    (domain : Bytes) (frames : List Bytes)
    (subReply : Except RequestError (List Bytes))
    (hc : lookupA st.connections cid = some conn) :
    processRequest hashFn secret st cid (bytes "transmit" :: domain :: frames)
      subReply = transmitRequest st conn domain frames subReply := by
  unfold processRequest
  rw [hc]
  rfl

theorem processRequest_register (hashFn : Bytes → Bytes → Bytes → Bytes)
    (secret : Bytes) (st : BrokerState) (cid : Bytes) (conn : Conn)
    (domain : Bytes) (frames : List Bytes)
    (subReply : Except RequestError (List Bytes))
    (hc : lookupA st.connections cid = some conn) :
    processRequest hashFn secret st cid (bytes "register" :: domain :: frames)
      subReply = registerRequest hashFn secret st cid conn domain frames subReply := by
  unfold processRequest
  rw [hc]
  rfl

theorem processRequest_request (hashFn : Bytes → Bytes → Bytes → Bytes)
    (secret : Bytes) (st : BrokerState) (cid : Bytes) (conn : Conn)
    (domain : Bytes) (frames : List Bytes)
    (subReply : Except RequestError (List Bytes))
    (hc : lookupA st.connections cid = some conn) :
    processRequest hashFn secret st cid (bytes "request" :: domain :: frames)
      subReply = requestRequest st conn domain frames subReply := by
  unfold processRequest
  rw [hc]
  rfl

/-- C2 counterexample: a connection registered only for `user/a` (it does not
serve `service/link`, and no `service/link` connection exists at all) sends a
`transmit` request and a `transmit` notification impersonating `xd`/`xt`;
both are accepted and forwarded to the target, contradicting the claim that
they must fail. -/
theorem C2_counterexample :
    lookupA (⟨[2], [(bytes "user/a", [5])]⟩ : Conn).domains SERVICE_LINK_DOMAIN =
      none ∧
    processRequest hfn0 []
      ⟨[(bytes "C", ⟨[2], [(bytes "user/a", [5])]⟩),
        (bytes "S", ⟨[3], [(bytes "svc", [])]⟩)], [(bytes "svc", [bytes "S"])]⟩
      (bytes "C")
      [bytes "transmit", bytes "user/a", bytes "svc", bytes "xd", bytes "xt",
       bytes "pl"] (.ok [[9]]) =
      .ok ⟨⟨[(bytes "C", ⟨[2], [(bytes "user/a", [5])]⟩),
             (bytes "S", ⟨[3], [(bytes "svc", [])]⟩)], [(bytes "svc", [bytes "S"])]⟩,
           [⟨bytes "S", [bytes "svc", bytes "xd", bytes "xt", bytes "pl"]⟩],
           some [[9]]⟩ ∧
    processNotification
      ⟨[(bytes "C", ⟨[2], [(bytes "user/a", [5])]⟩),
        (bytes "S", ⟨[3], [(bytes "svc", [])]⟩)], [(bytes "svc", [bytes "S"])]⟩
      (bytes "C")
      [bytes "transmit", bytes "user/a", bytes "svc", bytes "ev", bytes "xd",
       bytes "xt", bytes "pl"] =
      .ok (⟨[(bytes "C", ⟨[2], [(bytes "user/a", [5])]⟩),
             (bytes "S", ⟨[3], [(bytes "svc", [])]⟩)], [(bytes "svc", [bytes "S"])]⟩,
           ⟨bytes "S", [bytes "svc", bytes "xd", bytes "xt", bytes "ev", bytes "pl"]⟩) :=
  ⟨by decide, by decide, by decide⟩

/-- C2 amended: the broker gates `transmit` (request and notification) only on
the supplied source-domain frame being registered on the calling connection -
any registered connection may transmit, not just one serving `service/link`;
an unregistered source-domain fails with 412 "Not registered.", and an
accepted transmit is forwarded with the impersonated x-domain/x-token as the
caller identity. -/
theorem C2_theorem :
    (∀ (hashFn : Bytes → Bytes → Bytes → Bytes) (secret : Bytes)
       (st : BrokerState) (cid : Bytes) (conn : Conn) (domain : Bytes)
       (frames : List Bytes) (subReply : Except RequestError (List Bytes)),
       lookupA st.connections cid = some conn →
       lookupA conn.domains domain = none →
       processRequest hashFn secret st cid (bytes "transmit" :: domain :: frames)
         subReply = .error (.callError 412 (bytes "Not registered."))) ∧
    (∀ (hashFn : Bytes → Bytes → Bytes → Bytes) (secret : Bytes)
       (st : BrokerState) (cid : Bytes) (conn : Conn) (domain tok target : Bytes)
       (xd xt : Bytes) (args : List Bytes) (r : List Bytes) (h : Bytes)
       (t' : List Bytes),
       lookupA st.connections cid = some conn →
       lookupA conn.domains domain = some tok →
       lookupA st.connectionsByDomain target = some (h :: t') →
       processRequest hashFn secret st cid
         (bytes "transmit" :: domain :: target :: xd :: xt :: args) (.ok r) =
         .ok ⟨⟨st.connections, setA st.connectionsByDomain target (t' ++ [h])⟩,
              [⟨h, target :: xd :: xt :: args⟩], some r⟩) ∧
    (∀ (st : BrokerState) (cid : Bytes) (conn : Conn)
       (domain target type2 xd xt : Bytes) (args : List Bytes) (h : Bytes)
       (t' : List Bytes),
       lookupA st.connections cid = some conn →
       (lookupA conn.domains domain).isSome →
       lookupA st.connectionsByDomain target = some (h :: t') →
       processNotification st cid
         (bytes "transmit" :: domain :: target :: type2 :: xd :: xt :: args) =
         .ok (⟨st.connections, setA st.connectionsByDomain target (t' ++ [h])⟩,
              ⟨h, target :: xd :: xt :: type2 :: args⟩)) := by
  refine ⟨?_, ?_, ?_⟩
  · intro hashFn secret st cid conn domain frames subReply hc hdom
    rw [processRequest_transmit hashFn secret st cid conn domain frames subReply hc]
    unfold transmitRequest
    rw [hdom]
    rfl
  · intro hashFn secret st cid conn domain tok target xd xt args r h t' hc hdom htgt
    rw [processRequest_transmit hashFn secret st cid conn domain
      (target :: xd :: xt :: args) (.ok r) hc]
    unfold transmitRequest
    rw [hdom]
    have hgc : getConnectionFor st.connectionsByDomain target false =
        (some (.direct h), setA st.connectionsByDomain target (t' ++ [h])) := by
      unfold getConnectionFor getDirect
      rw [htgt]
    simp only [Option.isSome_some, if_pos]
    rw [hgc]
    rfl
  · intro st cid conn domain target type2 xd xt args h t' hc hdom htgt
    unfold processNotification
    rw [hc]
    simp only []
    rw [if_pos hdom]
    have hgc : getConnectionFor st.connectionsByDomain target true =
        (some (.direct h), setA st.connectionsByDomain target (t' ++ [h])) := by
      unfold getConnectionFor getDirect
      rw [htgt]
    rw [hgc]
    rfl

/-- Witness for C2 amended: the 412 branch and the forwarding branch at a
concrete state. -/
theorem C2_witness :
    lookupA [(bytes "C", (⟨[2], [(bytes "user/a", [5])]⟩ : Conn))] (bytes "C") =
      some ⟨[2], [(bytes "user/a", [5])]⟩ ∧
    lookupA ([(bytes "user/a", [5])] : List (Bytes × Bytes)) (bytes "other") =
      none ∧
    processRequest hfn0 [] ⟨[(bytes "C", ⟨[2], [(bytes "user/a", [5])]⟩)], []⟩
      (bytes "C") [bytes "transmit", bytes "other", bytes "svc", bytes "xd",
        bytes "xt"] (.ok []) =
      .error (.callError 412 (bytes "Not registered.")) :=
  ⟨by decide, by decide,
   C2_theorem.1 hfn0 [] ⟨[(bytes "C", ⟨[2], [(bytes "user/a", [5])]⟩)], []⟩
     (bytes "C") ⟨[2], [(bytes "user/a", [5])]⟩ (bytes "other")
     [bytes "svc", bytes "xd", bytes "xt"] (.ok []) (by decide) (by decide)⟩

theorem getDirect_none_of_empty (byDom : List (Bytes × List Bytes)) (d : Bytes)
    (h : (lookupA byDom d).getD [] = []) : getDirect byDom d = none := by
  unfold getDirect
  cases he : lookupA byDom d with
  | none => rfl
  | some dq =>
    cases dq with
    | nil => rfl
    | cons a t =>
      rw [he] at h
      simp at h

/-- C5: routing of an inbound `request` whose source-domain is registered on
the calling connection: a locally-registered target gets the round-robin head
with wire frames `[target, source, source-token, *args]` and the reply is
forwarded verbatim; an unknown target with a `service/link` connection is
forwarded to the link connection as a `dispatch` request with the target
domain as extra argument; otherwise the request fails 404 with a message
starting "No such domain". -/
theorem C5_theorem (hashFn : Bytes → Bytes → Bytes → Bytes) (secret : Bytes)
    (st : BrokerState) (cid : Bytes) (conn : Conn) (domain tok target : Bytes)
    (rest : List Bytes) (subReply : Except RequestError (List Bytes))
    (hc : lookupA st.connections cid = some conn)
    (hdom : lookupA conn.domains domain = some tok) :
    (∀ (h : Bytes) (t' : List Bytes) (r : List Bytes),
       lookupA st.connectionsByDomain target = some (h :: t') → subReply = .ok r →
       processRequest hashFn secret st cid
         (bytes "request" :: domain :: target :: rest) subReply =
         .ok ⟨⟨st.connections, setA st.connectionsByDomain target (t' ++ [h])⟩,
              [⟨h, target :: domain :: tok :: rest⟩], some r⟩) ∧
    ((lookupA st.connectionsByDomain target).getD [] = [] →
      ∀ (hL : Bytes) (tL : List Bytes) (r : List Bytes),
      lookupA st.connectionsByDomain SERVICE_LINK_DOMAIN = some (hL :: tL) →
      subReply = .ok r →
      processRequest hashFn secret st cid
        (bytes "request" :: domain :: target :: rest) subReply =
        .ok ⟨⟨st.connections,
              setA st.connectionsByDomain SERVICE_LINK_DOMAIN (tL ++ [hL])⟩,
             [⟨hL, SERVICE_LINK_DOMAIN :: domain :: tok :: bytes "dispatch" ::
                target :: rest⟩], some r⟩) ∧
    ((lookupA st.connectionsByDomain target).getD [] = [] →
      (lookupA st.connectionsByDomain SERVICE_LINK_DOMAIN).getD [] = [] →
      processRequest hashFn secret st cid
        (bytes "request" :: domain :: target :: rest) subReply =
        .error (.callError 404 (noSuchDomainMsg target)) ∧
      ∃ s, noSuchDomainMsg target = bytes "No such domain" ++ s) := by
  refine ⟨?_, ?_, ?_⟩
  · intro h t' r htgt hr
    rw [processRequest_request hashFn secret st cid conn domain
      (target :: rest) subReply hc]
    unfold requestRequest
    rw [hdom]
    have hgc : getConnectionFor st.connectionsByDomain target true =
        (some (.direct h), setA st.connectionsByDomain target (t' ++ [h])) := by
      unfold getConnectionFor getDirect
      rw [htgt]
    simp only [Option.isSome_some, if_pos]
    rw [hgc, hr]
    rfl
  · intro hmiss hL tL r hlink hr
    rw [processRequest_request hashFn secret st cid conn domain
      (target :: rest) subReply hc]
    unfold requestRequest
    rw [hdom]
    have hgd := getDirect_none_of_empty st.connectionsByDomain target hmiss
    have hgdl : getDirect st.connectionsByDomain SERVICE_LINK_DOMAIN =
        some (hL, setA st.connectionsByDomain SERVICE_LINK_DOMAIN (tL ++ [hL])) := by
      unfold getDirect
      rw [hlink]
    have hgc : getConnectionFor st.connectionsByDomain target true =
        (some (.link hL),
         setA st.connectionsByDomain SERVICE_LINK_DOMAIN (tL ++ [hL])) := by
      unfold getConnectionFor
      rw [hgd, hgdl]
      rfl
    simp only [Option.isSome_some, if_pos]
    rw [hgc, hr]
    rfl
  · intro hmiss hmissL
    constructor
    · rw [processRequest_request hashFn secret st cid conn domain
        (target :: rest) subReply hc]
      unfold requestRequest
      rw [hdom]
      have hgd := getDirect_none_of_empty st.connectionsByDomain target hmiss
      have hgdl := getDirect_none_of_empty st.connectionsByDomain
        SERVICE_LINK_DOMAIN hmissL
      have hgc : getConnectionFor st.connectionsByDomain target true =
          (none, st.connectionsByDomain) := by
        unfold getConnectionFor
        rw [hgd, hgdl]
        rfl
      simp only [Option.isSome_some, if_pos]
      rw [hgc]
    · refine ⟨bytes ": " ++ pyBytesRepr target ++ bytes ".", ?_⟩
      unfold noSuchDomainMsg
      rw [show (bytes "No such domain: ") = bytes "No such domain" ++ bytes ": "
        from by decide]
      simp [List.append_assoc]

/-- Witness for C5: connection `C` registered for `user/a` with token `[5]`
requests target `svc` served by `S`; the forwarded frames and verbatim reply
are as claimed. -/
theorem C5_witness :
    lookupA [(bytes "C", (⟨[2], [(bytes "user/a", [5])]⟩ : Conn)),
      (bytes "S", (⟨[3], [(bytes "svc", [])]⟩ : Conn))] (bytes "C") =
      some ⟨[2], [(bytes "user/a", [5])]⟩ ∧
    processRequest hfn0 []
      ⟨[(bytes "C", ⟨[2], [(bytes "user/a", [5])]⟩),
        (bytes "S", ⟨[3], [(bytes "svc", [])]⟩)], [(bytes "svc", [bytes "S"])]⟩
      (bytes "C") [bytes "request", bytes "user/a", bytes "svc", bytes "cmd"]
      (.ok [[9]]) =
      .ok ⟨⟨[(bytes "C", ⟨[2], [(bytes "user/a", [5])]⟩),
             (bytes "S", ⟨[3], [(bytes "svc", [])]⟩)], [(bytes "svc", [bytes "S"])]⟩,
           [⟨bytes "S", [bytes "svc", bytes "user/a", [5], bytes "cmd"]⟩],
           some [[9]]⟩ :=
  ⟨by decide,
   by
    have := (C5_theorem hfn0 []
      ⟨[(bytes "C", ⟨[2], [(bytes "user/a", [5])]⟩),
        (bytes "S", ⟨[3], [(bytes "svc", [])]⟩)], [(bytes "svc", [bytes "S"])]⟩
      (bytes "C") ⟨[2], [(bytes "user/a", [5])]⟩ (bytes "user/a") [5] (bytes "svc")
      [bytes "cmd"] (.ok [[9]]) (by decide) (by decide)).1 (bytes "S") [] [[9]]
      (by decide) rfl
    exact this⟩

theorem registerRequest_service {hashFn : Bytes → Bytes → Bytes → Bytes}
    {secret : Bytes} {st : BrokerState} {cid : Bytes} {conn : Conn}
    {domain credentials : Bytes} {rest : List Bytes}
    {subReply : Except RequestError (List Bytes)}
    (hsvc : startsWith domain servicePrefixBytes = true) :
    registerRequest hashFn secret st cid conn domain (credentials :: rest) subReply =
      (match verifyServiceCredentials hashFn secret domain credentials with
       | .error e => .error e
       | .ok ok =>
         if ok then finishRegister st cid domain [] []
         else .error (.callError 401 (bytes "Invalid shared secret."))) := by
  unfold registerRequest
  rw [hsvc]
  rfl

theorem registerRequest_delegated {hashFn : Bytes → Bytes → Bytes → Bytes}
    {secret : Bytes} {st : BrokerState} {cid : Bytes} {conn : Conn}
    {domain credentials : Bytes} {rest : List Bytes}
    {subReply : Except RequestError (List Bytes)}
    (hsvc : startsWith domain servicePrefixBytes = false) :
    registerRequest hashFn secret st cid conn domain (credentials :: rest) subReply =
      (match getConnectionFor st.connectionsByDomain SERVICE_AUTHENTICATION_DOMAIN
          true with
       | (none, _) =>
         .error (.callError 503 (bytes "Authentication service unavailable."))
       | (some tgt, byDom') =>
         match subReply with
         | .error e => .error e
         | .ok reply =>
           match reply with
           | [token] =>
             finishRegister ⟨st.connections, byDom'⟩ cid domain token
               [tgt.request SERVICE_AUTHENTICATION_DOMAIN domain
                 (lookupA conn.domains domain) [bytes "authenticate", credentials]]
           | _ => .error (.exn "ValueError")) := by
  unfold registerRequest
  rw [hsvc]
  rfl

theorem wf_single (cid uid : Bytes) : Wf ⟨[(cid, ⟨uid, []⟩)], []⟩ := by
  refine ⟨?_, ?_, ?_, ?_, ?_, ?_, ?_⟩
  · simp [keysA]
  · simp [keysA]
  · intro cid' c h
    simp only [lookupA] at h
    split at h
    · injection h with h
      rw [← h]
      simp [keysA]
    · exact absurd h (by simp)
  · intro d dq h
    simp [lookupA] at h
  · intro d dq h
    simp [lookupA] at h
  · intro d dq cid'' h
    simp [lookupA] at h
  · intro cid' c d h
    simp only [lookupA] at h
    split at h
    · injection h with h
      rw [← h]
      simp [dequeOf, lookupA]
    · exact absurd h (by simp)

/-- C8 counterexample: the domain `services/x` does not start with `service/`
(so by the claim it should take the delegated-authentication path, here a 503
since no authentication service is registered), but the broker verifies the
credentials locally - `startswith(b'service')` has no trailing slash - and
fails with 401 "Invalid shared secret.". -/
theorem C8_counterexample :
    startsWith (bytes "services/x") (bytes "service/") = false ∧
    startsWith (bytes "services/x") servicePrefixBytes = true ∧
    processRequest hfn0 (bytes "sec") ⟨[(bytes "C", ⟨[2], []⟩)], []⟩ (bytes "C")
      [bytes "register", bytes "services/x", [0]] (.ok [[7]]) =
      .error (.callError 401 (bytes "Invalid shared secret.")) ∧
    processRequest hfn0 (bytes "sec") ⟨[(bytes "C", ⟨[2], []⟩)], []⟩ (bytes "C")
      [bytes "register", bytes "services/x", [0]] (.ok [[7]]) ≠
      .error (.callError 503 (bytes "Authentication service unavailable.")) :=
  ⟨by decide, by decide, by decide, by decide⟩

/-- C8 amended: the broker verifies registration credentials locally exactly
when the domain starts with `service` (no trailing slash required): on local
verification failure the request fails 401 "Invalid shared secret.", on
success the issued token is the empty byte string with nothing sent on the
wire; for any other domain the outcome does not depend on the hash verifier
at all (the delegated path is taken). -/
theorem C8_theorem (hashFn : Bytes → Bytes → Bytes → Bytes) (secret : Bytes)
    (st : BrokerState) (cid : Bytes) (conn : Conn) (domain credentials : Bytes)
    (rest : List Bytes) (subReply : Except RequestError (List Bytes))
    (hc : lookupA st.connections cid = some conn) (hwf : Wf st) :
    (startsWith domain servicePrefixBytes = true →
      verifyServiceCredentials hashFn secret domain credentials = .ok false →
      processRequest hashFn secret st cid
        (bytes "register" :: domain :: credentials :: rest) subReply =
        .error (.callError 401 (bytes "Invalid shared secret."))) ∧
    (startsWith domain servicePrefixBytes = true →
      verifyServiceCredentials hashFn secret domain credentials = .ok true →
      ∃ st2, processRequest hashFn secret st cid
          (bytes "register" :: domain :: credentials :: rest) subReply =
          .ok ⟨st2, [], some [[]]⟩ ∧
        ∃ c', lookupA st2.connections cid = some c' ∧
          lookupA c'.domains domain = some []) ∧
    (∀ hashFn' : Bytes → Bytes → Bytes → Bytes,
      startsWith domain servicePrefixBytes = false →
      processRequest hashFn secret st cid
        (bytes "register" :: domain :: credentials :: rest) subReply =
      processRequest hashFn' secret st cid
        (bytes "register" :: domain :: credentials :: rest) subReply) := by
  refine ⟨?_, ?_, ?_⟩
  · intro hsvc hv
    rw [processRequest_register hashFn secret st cid conn domain
      (credentials :: rest) subReply hc]
    rw [registerRequest_service hsvc, hv]
    rfl
  · intro hsvc hv
    obtain ⟨st2, hfin, hwf2, c', hc', htok⟩ := finishRegister_ok hwf hc domain [] []
    refine ⟨st2, ?_, c', hc', htok⟩
    rw [processRequest_register hashFn secret st cid conn domain
      (credentials :: rest) subReply hc]
    rw [registerRequest_service hsvc, hv]
    simp only [if_pos]
    exact hfin
  · intro hashFn' hsvc
    rw [processRequest_register hashFn secret st cid conn domain
      (credentials :: rest) subReply hc]
    rw [processRequest_register hashFn' secret st cid conn domain
      (credentials :: rest) subReply hc]
    rw [registerRequest_delegated hsvc, registerRequest_delegated hsvc]

/-- Witness for C8 amended: a concrete 401 for `service/x` with bad
credentials. -/
theorem C8_witness :
    startsWith (bytes "service/x") servicePrefixBytes = true ∧
    verifyServiceCredentials hfn0 (bytes "sec") (bytes "service/x") [0] =
      .ok false ∧
    processRequest hfn0 (bytes "sec") ⟨[(bytes "C", ⟨[2], []⟩)], []⟩ (bytes "C")
      [bytes "register", bytes "service/x", [0]] (.ok [[7]]) =
      .error (.callError 401 (bytes "Invalid shared secret.")) :=
  ⟨by decide, by decide,
   (C8_theorem hfn0 (bytes "sec") ⟨[(bytes "C", ⟨[2], []⟩)], []⟩ (bytes "C")
     ⟨[2], []⟩ (bytes "service/x") [0] [] (.ok [[7]]) (by decide)
     (wf_single (bytes "C") [2])).1 (by decide) (by decide)⟩

/-- C3 counterexample: with no `service/authentication` connection but a
`service/link` connection `L` registered, a `register` for `user/bob` does
not fail 503 - the broker sends the `authenticate` request through the link
connection as a `dispatch` and registers the returned token; moreover, with
an authentication service present, a two-frame reply makes the registration
fail with a `ValueError` (the `token, = reply` unpack), so only a one-frame
reply yields a token. -/
theorem C3_counterexample :
    lookupA ([(SERVICE_LINK_DOMAIN, [bytes "L"])] : List (Bytes × List Bytes))
      SERVICE_AUTHENTICATION_DOMAIN = none ∧
    processRequest hfn0 []
      ⟨[(bytes "C", ⟨[2], []⟩), (bytes "L", ⟨[4], [(SERVICE_LINK_DOMAIN, [])]⟩)],
        [(SERVICE_LINK_DOMAIN, [bytes "L"])]⟩ (bytes "C")
      [bytes "register", bytes "user/bob", bytes "pw"] (.ok [[7]]) =
      .ok ⟨⟨[(bytes "C", ⟨[2], [(bytes "user/bob", [7])]⟩),
             (bytes "L", ⟨[4], [(SERVICE_LINK_DOMAIN, [])]⟩)],
            [(SERVICE_LINK_DOMAIN, [bytes "L"]), (bytes "user/bob", [bytes "C"])]⟩,
           [⟨bytes "L", SERVICE_LINK_DOMAIN :: bytes "user/bob" :: [] ::
              bytes "dispatch" :: SERVICE_AUTHENTICATION_DOMAIN ::
              [bytes "authenticate", bytes "pw"]⟩],
           some [[7]]⟩ ∧
    processRequest hfn0 []
      ⟨[(bytes "C", ⟨[2], []⟩), (bytes "L", ⟨[4], [(SERVICE_LINK_DOMAIN, [])]⟩)],
        [(SERVICE_LINK_DOMAIN, [bytes "L"])]⟩ (bytes "C")
      [bytes "register", bytes "user/bob", bytes "pw"] (.ok [[7]]) ≠
      .error (.callError 503 (bytes "Authentication service unavailable.")) ∧
    processRequest hfn0 []
      ⟨[(bytes "C", ⟨[2], []⟩),
        (bytes "A", ⟨[6], [(SERVICE_AUTHENTICATION_DOMAIN, [])]⟩)],
        [(SERVICE_AUTHENTICATION_DOMAIN, [bytes "A"])]⟩ (bytes "C")
      [bytes "register", bytes "user/bob", bytes "pw"] (.ok [[1], [2]]) =
      .error (.exn "ValueError") :=
  ⟨by decide, by decide, by decide, by decide⟩

/-- C3 amended: for a `register` of a non-service domain, the broker fails
503 "Authentication service unavailable." only when neither
`service/authentication` nor `service/link` has a registered connection; when
an authentication connection exists it receives an `authenticate` request
with the caller's domain as source-domain and the credentials as sole
payload; when only a link connection exists the same request goes through it
as a `dispatch`; and the reply must be exactly one frame, which becomes the
issued token (any other reply length is an error). -/
theorem C3_theorem (hashFn : Bytes → Bytes → Bytes → Bytes) (secret : Bytes)
    (st : BrokerState) (cid : Bytes) (conn : Conn) (domain credentials : Bytes)
    (rest : List Bytes) (subReply : Except RequestError (List Bytes))
    (hc : lookupA st.connections cid = some conn) (hwf : Wf st)
    (hsvc : startsWith domain servicePrefixBytes = false) :
    ((lookupA st.connectionsByDomain SERVICE_AUTHENTICATION_DOMAIN).getD [] = [] →
      (lookupA st.connectionsByDomain SERVICE_LINK_DOMAIN).getD [] = [] →
      processRequest hashFn secret st cid
        (bytes "register" :: domain :: credentials :: rest) subReply =
        .error (.callError 503 (bytes "Authentication service unavailable."))) ∧
    (∀ (h : Bytes) (t' : List Bytes) (tk : Bytes),
      lookupA st.connectionsByDomain SERVICE_AUTHENTICATION_DOMAIN =
        some (h :: t') →
      subReply = .ok [tk] →
      ∃ st2, processRequest hashFn secret st cid
          (bytes "register" :: domain :: credentials :: rest) subReply =
          .ok ⟨st2,
               [⟨h, SERVICE_AUTHENTICATION_DOMAIN :: domain ::
                  orEmpty (lookupA conn.domains domain) ::
                  bytes "authenticate" :: credentials :: []⟩], some [tk]⟩ ∧
        ∃ c', lookupA st2.connections cid = some c' ∧
          lookupA c'.domains domain = some tk) ∧
    ((lookupA st.connectionsByDomain SERVICE_AUTHENTICATION_DOMAIN).getD [] = [] →
      ∀ (h : Bytes) (t' : List Bytes) (tk : Bytes),
      lookupA st.connectionsByDomain SERVICE_LINK_DOMAIN = some (h :: t') →
      subReply = .ok [tk] →
      ∃ st2, processRequest hashFn secret st cid
          (bytes "register" :: domain :: credentials :: rest) subReply =
          .ok ⟨st2,
               [⟨h, SERVICE_LINK_DOMAIN :: domain ::
                  orEmpty (lookupA conn.domains domain) :: bytes "dispatch" ::
                  SERVICE_AUTHENTICATION_DOMAIN ::
                  bytes "authenticate" :: credentials :: []⟩], some [tk]⟩ ∧
        ∃ c', lookupA st2.connections cid = some c' ∧
          lookupA c'.domains domain = some tk) ∧
    (∀ (h : Bytes) (t' : List Bytes) (r : List Bytes),
      lookupA st.connectionsByDomain SERVICE_AUTHENTICATION_DOMAIN =
        some (h :: t') →
      subReply = .ok r → r.length ≠ 1 →
      processRequest hashFn secret st cid
        (bytes "register" :: domain :: credentials :: rest) subReply =
        .error (.exn "ValueError")) := by
  refine ⟨?_, ?_, ?_, ?_⟩
  · intro hma hml
    rw [processRequest_register hashFn secret st cid conn domain
      (credentials :: rest) subReply hc]
    rw [registerRequest_delegated hsvc]
    have hgc : getConnectionFor st.connectionsByDomain
        SERVICE_AUTHENTICATION_DOMAIN true = (none, st.connectionsByDomain) := by
      unfold getConnectionFor
      rw [getDirect_none_of_empty _ _ hma, getDirect_none_of_empty _ _ hml]
      rfl
    rw [hgc]
  · intro h t' tk hauth hr
    have hgc : getConnectionFor st.connectionsByDomain
        SERVICE_AUTHENTICATION_DOMAIN true =
        (some (.direct h),
         setA st.connectionsByDomain SERVICE_AUTHENTICATION_DOMAIN (t' ++ [h])) := by
      unfold getConnectionFor getDirect
      rw [hauth]
    have hwfR : Wf (⟨st.connections,
        setA st.connectionsByDomain SERVICE_AUTHENTICATION_DOMAIN (t' ++ [h])⟩ :
        BrokerState) := by
      have hx := wf_getConnectionFor hwf SERVICE_AUTHENTICATION_DOMAIN true
      rw [hgc] at hx
      exact hx
    obtain ⟨st2, hfin, hwf2, c', hc', htok⟩ := finishRegister_ok hwfR hc domain tk
      [Target.request (.direct h) SERVICE_AUTHENTICATION_DOMAIN domain
        (lookupA conn.domains domain) [bytes "authenticate", credentials]]
    refine ⟨st2, ?_, c', hc', htok⟩
    rw [processRequest_register hashFn secret st cid conn domain
      (credentials :: rest) subReply hc]
    rw [registerRequest_delegated hsvc, hgc, hr]
    exact hfin
  · intro hma h t' tk hlink hr
    have hgc : getConnectionFor st.connectionsByDomain
        SERVICE_AUTHENTICATION_DOMAIN true =
        (some (.link h),
         setA st.connectionsByDomain SERVICE_LINK_DOMAIN (t' ++ [h])) := by
      unfold getConnectionFor
      rw [getDirect_none_of_empty _ _ hma]
      unfold getDirect
      rw [hlink]
      rfl
    have hwfR : Wf (⟨st.connections,
        setA st.connectionsByDomain SERVICE_LINK_DOMAIN (t' ++ [h])⟩ :
        BrokerState) := by
      have hx := wf_getConnectionFor hwf SERVICE_AUTHENTICATION_DOMAIN true
      rw [hgc] at hx
      exact hx
    obtain ⟨st2, hfin, hwf2, c', hc', htok⟩ := finishRegister_ok hwfR hc domain tk
      [Target.request (.link h) SERVICE_AUTHENTICATION_DOMAIN domain
        (lookupA conn.domains domain) [bytes "authenticate", credentials]]
    refine ⟨st2, ?_, c', hc', htok⟩
    rw [processRequest_register hashFn secret st cid conn domain
      (credentials :: rest) subReply hc]
    rw [registerRequest_delegated hsvc, hgc, hr]
    exact hfin
  · intro h t' r hauth hr hlen
    have hgc : getConnectionFor st.connectionsByDomain
        SERVICE_AUTHENTICATION_DOMAIN true =
        (some (.direct h),
         setA st.connectionsByDomain SERVICE_AUTHENTICATION_DOMAIN (t' ++ [h])) := by
      unfold getConnectionFor getDirect
      rw [hauth]
    rw [processRequest_register hashFn secret st cid conn domain
      (credentials :: rest) subReply hc]
    rw [registerRequest_delegated hsvc, hgc, hr]
    cases r with
    | nil => rfl
    | cons a r2 =>
      cases r2 with
      | nil => exact absurd rfl hlen
      | cons b r3 => rfl

/-- Witness for C3 amended: with an empty registry the 503 branch fires. -/
theorem C3_witness :
    (lookupA ([] : List (Bytes × List Bytes))
      SERVICE_AUTHENTICATION_DOMAIN).getD [] = [] ∧
    processRequest hfn0 [] ⟨[(bytes "C", ⟨[2], []⟩)], []⟩ (bytes "C")
      [bytes "register", bytes "user/bob", bytes "pw"] (.ok [[7]]) =
      .error (.callError 503 (bytes "Authentication service unavailable.")) :=
  ⟨by decide,
   (C3_theorem hfn0 [] ⟨[(bytes "C", ⟨[2], []⟩)], []⟩ (bytes "C") ⟨[2], []⟩
     (bytes "user/bob") (bytes "pw") [] (.ok [[7]]) (by decide)
     (wf_single (bytes "C") [2]) (by decide)).1 (by decide) (by decide)⟩

/-- C7: registry/connection bijection invariant: `Wf` (whose `bij` field
states that a connection appears in the registry's deque for a domain iff
that domain is a key of the connection's `domains` map, with no dangling,
duplicate or empty registry entries) is preserved by every broker request
(register, re-register, unregister, request, query, transmit, ping), by
direct unregistration, and by connection removal; moreover the token stored
in the `domains` map after a successful registration is exactly the token the
broker replies with. -/
theorem C7_theorem :
    (∀ (hashFn : Bytes → Bytes → Bytes → Bytes) (secret : Bytes)
       (st : BrokerState) (cid : Bytes) (frames : List Bytes)
       (subReply : Except RequestError (List Bytes)) (res : PResult),
       Wf st → processRequest hashFn secret st cid frames subReply = .ok res →
       Wf res.state) ∧
    (∀ (st st' : BrokerState) (cid domain : Bytes), Wf st →
       unregisterConnection st cid domain = .ok st' → Wf st') ∧
    (∀ (st st' : BrokerState) (cid : Bytes), Wf st →
       removeConnection st cid = .ok st' → Wf st') ∧
    (∀ (hashFn : Bytes → Bytes → Bytes → Bytes) (secret : Bytes)
       (st : BrokerState) (cid : Bytes) (conn : Conn) (domain : Bytes)
       (frames : List Bytes) (subReply : Except RequestError (List Bytes))
       (res : PResult), Wf st → lookupA st.connections cid = some conn →
       registerRequest hashFn secret st cid conn domain frames subReply = .ok res →
       ∀ t, res.reply = some [t] →
         ∃ c', lookupA res.state.connections cid = some c' ∧
           lookupA c'.domains domain = some t) := by
  refine ⟨?_, ?_, ?_, ?_⟩
  · intro hashFn secret st cid frames subReply res hwf h
    exact wf_processRequest hwf h
  · intro st st' cid domain hwf h
    exact wf_unregisterConnection hwf h
  · intro st st' cid hwf h
    exact wf_removeConnection hwf h
  · intro hashFn secret st cid conn domain frames subReply res hwf hc h
    exact (wf_registerRequest hwf hc h).2

/-- Witness for C7: a concrete service registration on a single-connection
broker; the resulting state satisfies the bijection invariant. -/
theorem C7_witness :
    processRequest hfn0 (bytes "sec") ⟨[(bytes "C", ⟨[2], []⟩)], []⟩ (bytes "C")
      [bytes "register", bytes "service/x",
        0 :: (bytes "sec" ++ (bytes "x" ++ List.replicate 15 45))] (.ok []) =
      .ok ⟨⟨[(bytes "C", ⟨[2], [(bytes "service/x", [])]⟩)],
            [(bytes "service/x", [bytes "C"])]⟩, [], some [[]]⟩ ∧
    Wf (⟨[(bytes "C", ⟨[2], [(bytes "service/x", [])]⟩)],
         [(bytes "service/x", [bytes "C"])]⟩ : BrokerState) :=
  ⟨by decide,
   C7_theorem.1 hfn0 (bytes "sec") ⟨[(bytes "C", ⟨[2], []⟩)], []⟩ (bytes "C")
     [bytes "register", bytes "service/x",
       0 :: (bytes "sec" ++ (bytes "x" ++ List.replicate 15 45))] (.ok [])
     ⟨⟨[(bytes "C", ⟨[2], [(bytes "service/x", [])]⟩)],
       [(bytes "service/x", [bytes "C"])]⟩, [], some [[]]⟩
     (wf_single (bytes "C") [2]) (by decide)⟩
